import Mathlib

/-!
# CrappyFOV: the shadowcasting field-of-view routine `fov::FOV::updateFOV`

A shallow embedding of `src/fov.h` and theorems about it.

Modelling conventions (each one is repeated at the definition it concerns):

* C++ `int` is `Int`; no map in the claims comes near the overflow range.
* C++ `float` slopes are exact rationals (`ℚ`): products `depth * slope` and
  the two rounding helpers are computed without rounding error.
* Indexing a vector outside its bounds with the unchecked `operator[]`
  (`transparency[y][x]`, `visibilityMap[tile.y]`) and `std::vector::insert` at
  a position that does not exist have no defined behaviour: the run ends with
  the fatal outcome `Err.undefined`, which no handler catches. Nothing in
  `fov.h` raises the `std::out_of_range` that the `catch` clause of `scan` is
  written for.
* `Tile prevTile;` is never initialised.  The value it holds when the
  `k`-th invocation of `scan` starts is `junk k`, for an arbitrary
  `junk : Nat → Tile` supplied from outside.
* The recursion of `scan` is driven by a fuel counter; running out of fuel is
  the outcome `Status.outOfFuel`, so that non-termination can be expressed.
-/

namespace fov

/-! ## The embedding of `fov.h` -/

/-- The failures a run can end with. -/
inductive Err where
  | out_of_range
  | invalid_argument
  | undefined
  deriving DecidableEq, Repr

/-- The struct `Tile { int x; int y; }` (fov.h:132). -/
structure Tile where
  x : Int
  y : Int
  deriving DecidableEq, Repr

/-- The struct `Row { int depth; float startSlope; float endSlope; }` (fov.h:138),
with the two floats taken as exact rationals. -/
structure Row where
  depth : Int
  startSlope : ℚ
  endSlope : ℚ
  deriving DecidableEq

/-- The lambda `roundTiesUp` (fov.h:145): `floor(n + 0.5f)`. -/
def roundTiesUp (n : ℚ) : Int := ⌊n + 1 / 2⌋

/-- The lambda `roundTiesDown` (fov.h:149): `ceil(n - 0.5f)`. -/
def roundTiesDown (n : ℚ) : Int := ⌈n - 1 / 2⌉

/-- The lower column bound `minCol` of `Row::tiles` (fov.h:154). -/
def Row.minCol (r : Row) : Int := roundTiesUp (r.depth * r.startSlope)

/-- The upper column bound `maxCol` of `Row::tiles` (fov.h:155). -/
def Row.maxCol (r : Row) : Int := roundTiesDown (r.depth * r.endSlope)

/-- The method `Row::tiles` (fov.h:144): the loop `for (int col = minCol; col <= maxCol; col++)`
pushes the aggregate `{this->depth, col}`, so the FIRST field (`x`) of each
tile is the depth and the SECOND field (`y`) is the column. -/
def Row.tiles (r : Row) : List Tile :=
  (List.range (r.maxCol + 1 - r.minCol).toNat).map
    (fun (i : Nat) => { x := r.depth, y := r.minCol + (i : Int) })

/-- The method `Row::next` (fov.h:163). -/
def Row.next (r : Row) : Row :=
  { depth := r.depth + 1, startSlope := r.startSlope, endSlope := r.endSlope }

/-- The struct `Quadrant { int cardinal; std::pair<int,int> origin; }` (fov.h:169). -/
structure Quadrant where
  cardinal : Int
  origin : Int × Int
  deriving DecidableEq

/-- The method `Quadrant::transform` (fov.h:176): `col` is read from `tile.x` and `row`
from `tile.y`; the enum values are NORTH = 0, SOUTH = 1, EAST = 2, WEST = 3. -/
def Quadrant.transform (q : Quadrant) (tile : Tile) : Except Err (Int × Int) :=
  let col := tile.x
  let row := tile.y
  let ox := q.origin.1
  let oy := q.origin.2
  if q.cardinal = 0 then .ok (ox + col, oy - row)
  else if q.cardinal = 1 then .ok (ox + col, oy + row)
  else if q.cardinal = 2 then .ok (ox + row, oy + col)
  else if q.cardinal = 3 then .ok (ox - row, oy + col)
  else .error .invalid_argument

/-- The lambda `getTransparency` (fov.h:27): `transparency[y][x]` with the
unchecked `operator[]`, which never throws: when `y` or `x` is not an index of
the map the read has no defined behaviour, the fatal outcome `Err.undefined`. -/
def getTransparency (transparency : List (List Int)) (x y : Int) : Except Err Int :=
  if 0 ≤ y then
    match transparency[y.toNat]? with
    | none => .error .undefined
    | some cells =>
      if 0 ≤ x then
        match cells[x.toNat]? with
        | none => .error .undefined
        | some v => .ok v
      else .error .undefined
  else .error .undefined

/-- The call `std::vector::insert(begin() + n, a)` for `n ≤ size`. -/
def insertAt {α : Type} : Nat → α → List α → List α
  | 0, a, l => a :: l
  | _ + 1, a, [] => [a]
  | n + 1, a, b :: l => b :: insertAt n a l

/-- The lambda `setTile` (fov.h:32):
`visibilityMap[tile.y].insert(visibilityMap[tile.y].begin() + tile.x, val)`.
It INSERTS a new element into row `tile.y`; it is undefined when the row or
the insert position does not exist. -/
def setTile (visibilityMap : List (List Bool)) (tile : Tile) (val : Bool) :
    Except Err (List (List Bool)) :=
  if 0 ≤ tile.y ∧ 0 ≤ tile.x then
    match visibilityMap[tile.y.toNat]? with
    | none => .error .undefined
    | some cells =>
      if tile.x.toNat ≤ cells.length then
        .ok (visibilityMap.set tile.y.toNat (insertAt tile.x.toNat val cells))
      else .error .undefined
  else .error .undefined

/-- The lambda `slope` (fov.h:37): the column is read from `t.x`. -/
def slope (t : Tile) : ℚ :=
  let col := t.x
  (2 * (col : ℚ) - 1) / (2 * (col : ℚ))

/-- The lambda `isSymmetric` (fov.h:43): the column is read from `t.x`. -/
def isSymmetric (row : Row) (t : Tile) : Bool :=
  let col := t.x
  decide ((col : ℚ) ≥ row.depth * row.startSlope ∧ (col : ℚ) ≤ row.depth * row.endSlope)

/-- The lambda `isWall` (fov.h:59): `!getTransparency(coords)`. -/
def isWall (transparency : List (List Int)) (q : Quadrant) (t : Tile) : Except Err Bool :=
  match q.transform t with
  | .error e => .error e
  | .ok coords =>
    match getTransparency transparency coords.1 coords.2 with
    | .error e => .error e
    | .ok v => .ok (v == 0)

/-- The lambda `isFloor` (fov.h:65): `getTransparency(coords)` used as a condition. -/
def isFloor (transparency : List (List Int)) (q : Quadrant) (t : Tile) : Except Err Bool :=
  match q.transform t with
  | .error e => .error e
  | .ok coords =>
    match getTransparency transparency coords.1 coords.2 with
    | .error e => .error e
    | .ok v => .ok (v != 0)

/-- The lambda `reveal` (fov.h:71). -/
def reveal (q : Quadrant) (visibilityMap : List (List Bool)) (t : Tile) :
    Except Err (List (List Bool)) :=
  match q.transform t with
  | .error e => .error e
  | .ok coords => setTile visibilityMap { x := coords.1, y := coords.2 } true

/-- How a (partial) run ended. -/
inductive Status where
  | done
  | threw (e : Err)
  | outOfFuel
  deriving DecidableEq, Repr

/-- The mutable state of a run: the visibility map and the number of `scan`
invocations started so far (the index of the next uninitialised `prevTile`). -/
structure St where
  vis : List (List Bool)
  calls : Nat
  deriving DecidableEq, Repr

/-- Outcome of a (partial) run together with the state it left behind. -/
structure Res where
  status : Status
  st : St
  deriving DecidableEq, Repr

/-- The handler `catch (const std::out_of_range& e) { return; }` (fov.h:105):
an `out_of_range` ends the current `scan` normally, anything else propagates. -/
def handler (e : Err) (st : St) : Res :=
  if e = .out_of_range then { status := .done, st := st } else { status := .threw e, st := st }

/-- The body of `scan` from the `for` loop on (fov.h:86-113), for the tiles
still to visit; `rec` is the recursive call `scan`. -/
def scanTiles (rec : Row → St → Res) (transparency : List (List Int)) (q : Quadrant) :
    List Tile → Row → Tile → St → Res
  | [], row, prevTile, st =>
    -- fov.h:111, outside the try block
    match isFloor transparency q prevTile with
    | .error e => { status := .threw e, st := st }
    | .ok false => { status := .done, st := st }
    | .ok true => rec row.next st
  | tile :: rest, row, prevTile, st =>
    -- fov.h:89
    match isWall transparency q tile with
    | .error e => handler e st
    | .ok w =>
      match (if w || isSymmetric row tile then reveal q st.vis tile else .ok st.vis) with
      | .error e => handler e st
      | .ok vis1 =>
        let st1 : St := { st with vis := vis1 }
        -- fov.h:94
        match isWall transparency q prevTile with
        | .error e => handler e st1
        | .ok pw =>
          match (if pw then isFloor transparency q tile else .ok false) with
          | .error e => handler e st1
          | .ok c1 =>
            let row1 : Row := if c1 then { row with startSlope := slope tile } else row
            -- fov.h:99
            match isFloor transparency q prevTile with
            | .error e => handler e st1
            | .ok pf =>
              match (if pf then isWall transparency q tile else .ok false) with
              | .error e => handler e st1
              | .ok false => scanTiles rec transparency q rest row1 tile st1
              | .ok true =>
                let r := rec { row1.next with endSlope := slope tile } st1
                match r.status with
                | .done => scanTiles rec transparency q rest row1 tile r.st
                | .threw e => handler e r.st
                | .outOfFuel => r

/-- The recursive lambda `scan` (fov.h:77), with a fuel counter for the
recursion; `prevTile` starts as `junk k` in the `k`-th invocation. -/
def scan (junk : Nat → Tile) (transparency : List (List Int)) (q : Quadrant) :
    Nat → Row → St → Res
  | 0, _, st => { status := .outOfFuel, st := st }
  | fuel + 1, row, st =>
    scanTiles (scan junk transparency q fuel) transparency q row.tiles row
      (junk st.calls) { st with calls := st.calls + 1 }

/-- The row `firstRow = {1, -1.0f, 1.0f}` (fov.h:117). -/
def firstRow : Row := { depth := 1, startSlope := -1, endSlope := 1 }

/-- The quadrant loop (fov.h:53-119) over the given direction values. -/
def quadrantLoop (fuel : Nat) (junk : Nat → Tile) (transparency : List (List Int))
    (origin : Int × Int) : List Int → St → Res
  | [], st => { status := .done, st := st }
  | i :: rest, st =>
    let r := scan junk transparency { cardinal := i, origin := origin } fuel firstRow st
    match r.status with
    | .done => quadrantLoop fuel junk transparency origin rest r.st
    | _ => r

/-- The visibility map `updateFOV` starts from (fov.h:18-24): all `false`,
shaped like the transparency map. -/
def initialMap (transparency : List (List Int)) : List (List Bool) :=
  transparency.map (fun cells => cells.map (fun _ => false))

/-- The body of `updateFOV` with the quadrant loop running over `order`
(the source runs it over 0,1,2,3). -/
def updateFOVOrder (order : List Int) (fuel : Nat) (junk : Nat → Tile)
    (transparency : List (List Int)) (origin : Int × Int) : Res :=
  match setTile (initialMap transparency) { x := origin.1, y := origin.2 } true with
  | .error e => { status := .threw e, st := { vis := initialMap transparency, calls := 0 } }
  | .ok vis => quadrantLoop fuel junk transparency origin order { vis := vis, calls := 0 }

/-- The method `FOV::updateFOV` (fov.h:15): `for (int i = 0; i < 4; i++)`. -/
def updateFOV (fuel : Nat) (junk : Nat → Tile) (transparency : List (List Int))
    (origin : Int × Int) : Res :=
  updateFOVOrder [0, 1, 2, 3] fuel junk transparency origin

/-! ## Predicates and relations used in the statements -/

/-- The entry `map[y][x]` of a grid, if it exists. -/
def cellAt {α : Type} (grid : List (List α)) (x y : Int) : Option α :=
  if 0 ≤ y ∧ 0 ≤ x then
    match grid[y.toNat]? with
    | none => none
    | some cells => cells[x.toNat]?
  else none

/-- Every row of the map has `w` entries and there are `h` rows. -/
def Rectangular {α : Type} (grid : List (List α)) (w h : Nat) : Prop :=
  grid.length = h ∧ ∀ cells ∈ grid, cells.length = w

instance {α : Type} (grid : List (List α)) (w h : Nat) : Decidable (Rectangular grid w h) := by
  unfold Rectangular; infer_instance

/-- One of the four directions NORTH, SOUTH, EAST, WEST. -/
def Quadrant.Valid (q : Quadrant) : Prop :=
  q.cardinal = 0 ∨ q.cardinal = 1 ∨ q.cardinal = 2 ∨ q.cardinal = 3

/-- The relation "every cell `(x, y)` with `x ≤ ox` and `y ≤ oy` holds in `v2`
what it held in `v`". -/
def FrameRel (ox oy : Int) (v v2 : List (List Bool)) : Prop :=
  ∀ x y : Int, x ≤ ox → y ≤ oy → cellAt v2 x y = cellAt v x y

/-- The relation "`v2` has the rows of `v`, none of them shorter". -/
def GrowRel (v v2 : List (List Bool)) : Prop :=
  v2.length = v.length ∧
    ∀ (k : Nat) (cells : List Bool), v[k]? = some cells →
      ∃ cells2, v2[k]? = some cells2 ∧ cells.length ≤ cells2.length

deriving instance DecidableEq for Except

/-! ## Concrete inputs -/

/-- Scenario A of the specification: the 5x5 map with every tile transparent. -/
def allFloor5 : List (List Int) :=
  [[1, 1, 1, 1, 1], [1, 1, 1, 1, 1], [1, 1, 1, 1, 1], [1, 1, 1, 1, 1], [1, 1, 1, 1, 1]]

/-- Scenario B of the specification: a 5x5 map whose only opaque tile is (2,1). -/
def wallNorthMap : List (List Int) :=
  [[1, 1, 1, 1, 1], [1, 1, 0, 1, 1], [1, 1, 1, 1, 1], [1, 1, 1, 1, 1], [1, 1, 1, 1, 1]]

/-- Scenario C of the specification: the 3x3 map with every tile transparent. -/
def allFloor3 : List (List Int) := [[1, 1, 1], [1, 1, 1], [1, 1, 1]]

/-- A 3x4 map with two opaque tiles, (1,2) and (2,3). -/
def twoWallMap : List (List Int) := [[1, 1, 1], [1, 1, 1], [1, 0, 1], [1, 1, 0]]

/-- An uninitialised `prevTile` that always holds `{0, 0}`. -/
def junkZero : Nat → Tile := fun _ => { x := 0, y := 0 }

/-- An uninitialised `prevTile` that always holds `{-100, -100}`. -/
def junkFar : Nat → Tile := fun _ => { x := -100, y := -100 }

end fov

/-! ## The embedding of `grid.h` -/

namespace grid

/-- The failures of the grid container: the `std::invalid_argument` of the
constructor with its message, the `std::length_error` of `std::vector`, the
`std::out_of_range` of `vector::at`, and unchecked indexing outside a vector. -/
inductive Err where
  | invalid_argument (what : String)
  | length_error
  | out_of_range
  | undefined
  deriving DecidableEq, Repr

/-- The message of the constructor's `std::invalid_argument` (grid.h:14). -/
def negativeDimensions : String := "Grid dimensions cannot be negative."

/-- The constructor `std::vector<T>(n, value)` called with an `int` count: the
count is converted to `size_type`, so a negative `n` becomes a count above
`max_size()` and the constructor throws `std::length_error`. Exhausted memory
for a large non-negative count is not modelled. -/
def vectorOf {α : Type} (n : Int) (value : α) : Except Err (List α) :=
  if n < 0 then .error .length_error else .ok (List.replicate n.toNat value)

/-- The struct `Grid<T>` (grid.h:9): its three private members. -/
structure Grid (T : Type) where
  width : Int
  height : Int
  data : List (List T)

/-- The constructor `Grid(int w, int h)` (grid.h:12): the member initialisers
`width(w), height(h), data(h, std::vector<T>(w))` run first, the body with the
check for negative dimensions after them; `dflt` is the value-initialised `T`. -/
def Grid.construct {T : Type} (dflt : T) (w h : Int) : Except Err (Grid T) :=
  match vectorOf w dflt with
  | .error e => .error e
  | .ok cells =>
    match vectorOf h cells with
    | .error e => .error e
    | .ok data =>
      if h < 0 ∨ w < 0 then .error (.invalid_argument negativeDimensions)
      else .ok { width := w, height := h, data := data }

/-- The method `getWidth` (grid.h:63). -/
def Grid.getWidth {T : Type} (g : Grid T) : Int := g.width

/-- The method `getHeight` (grid.h:68). -/
def Grid.getHeight {T : Type} (g : Grid T) : Int := g.height

/-- The method `getData` (grid.h:73). -/
def Grid.getData {T : Type} (g : Grid T) : List (List T) := g.data

/-- The method `getTile` (grid.h:58): `data[y][x]`, unchecked. -/
def Grid.getTile {T : Type} (g : Grid T) (x y : Int) : Except Err T :=
  if 0 ≤ y ∧ 0 ≤ x then
    match g.data[y.toNat]? with
    | none => .error .undefined
    | some cells =>
      match cells[x.toNat]? with
      | none => .error .undefined
      | some t => .ok t
  else .error .undefined

/-- The method `setTile` (grid.h:53): `data[y][x] = element`, unchecked. -/
def Grid.setTile {T : Type} (g : Grid T) (element : T) (x y : Int) : Except Err (Grid T) :=
  if 0 ≤ y ∧ 0 ≤ x then
    match g.data[y.toNat]? with
    | none => .error .undefined
    | some cells =>
      if x.toNat < cells.length then
        .ok { g with data := g.data.set y.toNat (cells.set x.toNat element) }
      else .error .undefined
  else .error .undefined

/-- The method `extractAttributes` (grid.h:31): one output row per row of
`data`, one `push_back(extractFromElement(data[y][x]))` per cell. -/
def Grid.extractAttributes {T U : Type} (g : Grid T) (extractFromElement : T → U) :
    List (List U) :=
  g.data.map (fun cells => cells.map extractFromElement)

/-- The checked access `attributeData.at(y).at(x)` (grid.h:47). -/
def at2 {U : Type} (attributeData : List (List U)) (y x : Nat) : Except Err U :=
  match attributeData[y]? with
  | none => .error .out_of_range
  | some cells =>
    match cells[x]? with
    | none => .error .out_of_range
    | some u => .ok u

/-- The inner loop of `fillAttributes` (grid.h:46-48) from column `x` on, with
`n` columns still to visit. The result is the error that ended the loop, if
any, and the grid as it stands then. -/
def fillCellsFrom {T U : Type} (attributeData : List (List U)) (setAttribute : T → U → T)
    (y : Nat) : Nat → Nat → Grid T → Option Err × Grid T
  | 0, _, g => (none, g)
  | n + 1, x, g =>
    match g.getTile x y with
    | .error e => (some e, g)
    | .ok t =>
      match at2 attributeData y x with
      | .error e => (some e, g)
      | .ok u =>
        match g.setTile (setAttribute t u) x y with
        | .error e => (some e, g)
        | .ok g2 => fillCellsFrom attributeData setAttribute y n (x + 1) g2

/-- The outer loop of `fillAttributes` (grid.h:45-49) from row `y` on, with `m`
rows still to visit; the inner loop runs over `data[y].size()` columns. -/
def fillRowsFrom {T U : Type} (attributeData : List (List U)) (setAttribute : T → U → T) :
    Nat → Nat → Grid T → Option Err × Grid T
  | 0, _, g => (none, g)
  | m + 1, y, g =>
    let r := fillCellsFrom attributeData setAttribute y ((g.data[y]?).getD []).length 0 g
    match r.1 with
    | some _ => r
    | none => fillRowsFrom attributeData setAttribute m (y + 1) r.2

/-- The method `fillAttributes` (grid.h:44): the outer loop runs over
`data.size()` rows. -/
def Grid.fillAttributes {T U : Type} (g : Grid T) (attributeData : List (List U))
    (setAttribute : T → U → T) : Option Err × Grid T :=
  fillRowsFrom attributeData setAttribute g.data.length 0 g

/-- The array `a` has an entry for every cell of the grid. -/
def Covers {T U : Type} (g : Grid T) (a : List (List U)) : Prop :=
  ∀ (y x : Nat), (∃ t, g.getTile x y = .ok t) → ∃ u, at2 a y x = .ok u

/-- The grid has `h` rows of `w` cells and its dimensions say so. -/
def Grid.WellFormed {T : Type} (g : Grid T) (w h : Nat) : Prop :=
  g.width = w ∧ g.height = h ∧ g.data.length = h ∧ ∀ cells ∈ g.data, cells.length = w

/-- The rows `rows`, the first of them row `y` of the grid, are no longer than
the rows of `a` at the same indices (a missing row of `a` counts as empty). -/
def CoveredFrom {T U : Type} (a : List (List U)) : Nat → List (List T) → Prop
  | _, [] => True
  | y, cells :: rest => cells.length ≤ ((a[y]?).getD []).length ∧ CoveredFrom a (y + 1) rest

/-- What a successful `fillAttributes` leaves in the rows `rows`, the first of
them row `y` of the grid. -/
def fillData {T U : Type} (a : List (List U)) (s : T → U → T) : Nat → List (List T) →
    List (List T)
  | _, [] => []
  | y, cells :: rest => List.zipWith s cells ((a[y]?).getD []) :: fillData a s (y + 1) rest

/-- A 2x2 grid of (transparency, visible) cells in the manner of `test.cpp`. -/
def terrainGrid : Grid (Int × Bool) :=
  { width := 2, height := 2, data := [[(1, false), (0, false)], [(1, false), (1, false)]] }

end grid

namespace fov

/-! ## The same run with a record of what it does -/

/-- What a run does that the claims speak of: the `Row` values it builds, the
calls of `slope` and the calls of `setTile`. -/
inductive Event where
  /-- The row `firstRow` is passed to `scan` by `updateFOV` (fov.h:117-118). -/
  | first (row : Row)
  /-- The row `nextRow` is passed to `scan` at a floor-to-wall transition
  (fov.h:100-102). -/
  | child (row : Row)
  /-- The row `row.next()` is passed to `scan` after the loop (fov.h:112). -/
  | continuation (row : Row)
  /-- The row as it is after `row.startSlope = slope(tile)` (fov.h:95). -/
  | restarted (row : Row)
  /-- The call `slope(t)` (fov.h:95, 101). -/
  | slope (t : Tile)
  /-- The call `setTile({x, y}, true)` made, and completed, by `reveal` (fov.h:73). -/
  | reveal (x y : Int)
  /-- The call `setTile({x, y}, true)` made, and completed, by `updateFOV` for the
  origin (fov.h:50). -/
  | origin (x y : Int)
  deriving DecidableEq

/-- The record of a completed call `reveal(t)`. -/
def revealEvent (q : Quadrant) (t : Tile) : List Event :=
  match q.transform t with
  | .error _ => []
  | .ok coords => [Event.reveal coords.1 coords.2]

/-- Put the events `evs` in front of the record of `p`. -/
def logged (evs : List Event) (p : Res × List Event) : Res × List Event :=
  (p.1, evs ++ p.2)

/-- The function `scanTiles` again, returning also the record of the events. -/
def scanTilesT (rec : Row → St → Res × List Event) (transparency : List (List Int))
    (q : Quadrant) : List Tile → Row → Tile → St → Res × List Event
  | [], row, prevTile, st =>
    match isFloor transparency q prevTile with
    | .error e => ({ status := .threw e, st := st }, [])
    | .ok false => ({ status := .done, st := st }, [])
    | .ok true => logged [Event.continuation row.next] (rec row.next st)
  | tile :: rest, row, prevTile, st =>
    match isWall transparency q tile with
    | .error e => (handler e st, [])
    | .ok w =>
      match (if w || isSymmetric row tile then reveal q st.vis tile else .ok st.vis) with
      | .error e => (handler e st, [])
      | .ok vis1 =>
        let st1 : St := { st with vis := vis1 }
        let ev1 : List Event := if w || isSymmetric row tile then revealEvent q tile else []
        match isWall transparency q prevTile with
        | .error e => (handler e st1, ev1)
        | .ok pw =>
          match (if pw then isFloor transparency q tile else .ok false) with
          | .error e => (handler e st1, ev1)
          | .ok c1 =>
            let row1 : Row := if c1 then { row with startSlope := slope tile } else row
            let ev2 : List Event :=
              if c1 then [Event.slope tile, Event.restarted row1] else []
            match isFloor transparency q prevTile with
            | .error e => (handler e st1, ev1 ++ ev2)
            | .ok pf =>
              match (if pf then isWall transparency q tile else .ok false) with
              | .error e => (handler e st1, ev1 ++ ev2)
              | .ok false =>
                logged (ev1 ++ ev2) (scanTilesT rec transparency q rest row1 tile st1)
              | .ok true =>
                let r := rec { row1.next with endSlope := slope tile } st1
                let ev3 : List Event :=
                  [Event.slope tile, Event.child { row1.next with endSlope := slope tile }]
                match r.1.status with
                | .done =>
                  logged (ev1 ++ ev2 ++ ev3 ++ r.2)
                    (scanTilesT rec transparency q rest row1 tile r.1.st)
                | .threw e => (handler e r.1.st, ev1 ++ ev2 ++ ev3 ++ r.2)
                | .outOfFuel => (r.1, ev1 ++ ev2 ++ ev3 ++ r.2)

/-- The function `scan` again, returning also the record of the events. -/
def scanT (junk : Nat → Tile) (transparency : List (List Int)) (q : Quadrant) :
    Nat → Row → St → Res × List Event
  | 0, _, st => ({ status := .outOfFuel, st := st }, [])
  | fuel + 1, row, st =>
    scanTilesT (scanT junk transparency q fuel) transparency q row.tiles row
      (junk st.calls) { st with calls := st.calls + 1 }

/-- The function `quadrantLoop` again, returning also the record of the events. -/
def quadrantLoopT (fuel : Nat) (junk : Nat → Tile) (transparency : List (List Int))
    (origin : Int × Int) : List Int → St → Res × List Event
  | [], st => ({ status := .done, st := st }, [])
  | i :: rest, st =>
    let r := scanT junk transparency { cardinal := i, origin := origin } fuel firstRow st
    match r.1.status with
    | .done =>
      logged (Event.first firstRow :: r.2)
        (quadrantLoopT fuel junk transparency origin rest r.1.st)
    | _ => (r.1, Event.first firstRow :: r.2)

/-- The function `updateFOVOrder` again, returning also the record of the events. -/
def updateFOVOrderT (order : List Int) (fuel : Nat) (junk : Nat → Tile)
    (transparency : List (List Int)) (origin : Int × Int) : Res × List Event :=
  match setTile (initialMap transparency) { x := origin.1, y := origin.2 } true with
  | .error e =>
    ({ status := .threw e, st := { vis := initialMap transparency, calls := 0 } }, [])
  | .ok vis =>
    logged [Event.origin origin.1 origin.2]
      (quadrantLoopT fuel junk transparency origin order { vis := vis, calls := 0 })

/-- The function `updateFOV` again, returning also the record of the events. -/
def updateFOVT (fuel : Nat) (junk : Nat → Tile) (transparency : List (List Int))
    (origin : Int × Int) : Res × List Event :=
  updateFOVOrderT [0, 1, 2, 3] fuel junk transparency origin

/-- The row an event is about, if it is about a row. -/
def Event.row? : Event → Option Row
  | .first r => some r
  | .child r => some r
  | .continuation r => some r
  | .restarted r => some r
  | _ => none

/-- The slope that `slope` returns for every tile of a row of depth `d`:
`(2d - 1) / (2d)`. -/
def slopeAt (d : Int) : ℚ := slope { x := d, y := 0 }

/-- What holds for every row of a run: the depth is at least 1, the start slope
is at most the slope of the row's own depth, and the end slope is 1 or below
the slope of the row's own depth. -/
def RowInv (r : Row) : Prop :=
  1 ≤ r.depth ∧ r.startSlope ≤ slopeAt r.depth ∧
    (r.endSlope = 1 ∨ r.endSlope < slopeAt r.depth)

/-- What holds for every event of a run: its row has `RowInv`, a first row is
`firstRow`, a child row has
`startSlope ≤ endSlope`, a row whose start slope has been reassigned has end
slope 1 or `endSlope < startSlope`, and `slope` is called on a tile of depth at
least 1. -/
def EventInv (e : Event) : Prop :=
  (∀ r, e.row? = some r → RowInv r) ∧
  (∀ r, e = Event.first r → r = firstRow) ∧
  (∀ r, e = Event.child r → r.startSlope ≤ r.endSlope) ∧
  (∀ r, e = Event.restarted r → r.endSlope = 1 ∨ r.endSlope < r.startSlope) ∧
  (∀ t, e = Event.slope t → 1 ≤ t.x)

/-- A 3x4 map with three opaque tiles, (2,0), (1,2) and (2,3). -/
def threeWallMap : List (List Int) := [[1, 1, 0], [1, 1, 1], [1, 0, 1], [1, 1, 0]]

/-- The row that a recorded call of `setTile` targets: the `y` of its tile. -/
def Event.setTileRow? : Event → Option Int
  | .reveal _ y => some y
  | .origin _ y => some y
  | _ => none

/-- The number of recorded calls of `setTile` that target row `k`. -/
def setTileCalls (k : Nat) (evs : List Event) : Nat :=
  evs.countP (fun e => e.setTileRow? == some (k : Int))

/-- The length of row `k` of a visibility map, if the map has a row `k`. -/
def rowLen (v : List (List Bool)) (k : Nat) : Option Nat :=
  (v[k]?).map List.length

/-- A 3x3 map whose tile (1,1) is opaque, as are the tiles east and south of it:
(2,0), (2,1), (2,2), (0,2) and (1,2). -/
def cornerMap : List (List Int) := [[1, 1, 0], [1, 0, 0], [0, 0, 0]]

/-- A 3x4 map with a single opaque tile, (1,2). -/
def oneWallMap : List (List Int) := [[1, 1, 1], [1, 1, 1], [1, 0, 1], [1, 1, 1]]

/-- A 4x4 map with the opaque tiles (2,0), (1,1), (2,1), (0,2), (1,2), (3,2),
(0,3), (2,3) and (3,3). -/
def alcoveMap : List (List Int) := [[1, 1, 0, 1], [1, 0, 0, 1], [0, 0, 1, 0], [0, 1, 0, 0]]

/-- An uninitialised `prevTile` that holds `{1, -1}` in the second invocation of
`scan` and `{0, 0}` in every other one. -/
def junkWallOnce : Nat → Tile :=
  fun k => if k = 1 then { x := 1, y := -1 } else { x := 0, y := 0 }

/-- An uninitialised `prevTile` that holds `{1, -1}` in the first invocation of
`scan` and `{0, 0}` in every other one. -/
def junkFloorOnce : Nat → Tile :=
  fun k => if k = 0 then { x := 1, y := -1 } else { x := 0, y := 0 }

/-! ## Auxiliary lemmas -/

/-- The two rounding helpers differ by one exactly at the half-integers. -/
theorem roundTiesUp_eq_roundTiesDown_iff (z : ℚ) :
    roundTiesUp z = roundTiesDown z ↔ ∀ k : ℤ, z ≠ k + 1 / 2 := by
  unfold roundTiesUp roundTiesDown
  have hfl : ⌊z + 1 / 2⌋ = ⌊z - 1 / 2⌋ + 1 := by
    rw [← Int.floor_add_one]; congr 1; ring
  constructor
  · intro h k hk
    rw [hfl, hk] at h
    have h1 : ((k : ℚ) + 1 / 2 - 1 / 2) = (k : ℚ) := by ring
    rw [h1] at h
    simp at h
  · intro h
    rw [hfl]
    symm
    rw [Int.ceil_eq_iff]
    constructor
    · have h1 : (⌊z - 1 / 2⌋ : ℚ) ≤ z - 1 / 2 := Int.floor_le _
      have h2 : (⌊z - 1 / 2⌋ : ℚ) ≠ z - 1 / 2 := by
        intro heq
        apply h ⌊z - 1 / 2⌋
        rw [heq]; ring
      push_cast
      have := lt_of_le_of_ne h1 h2
      linarith
    · push_cast
      exact le_of_lt (Int.lt_floor_add_one _)

theorem roundTies_half (k : ℤ) :
    roundTiesUp (k + 1 / 2) = k + 1 ∧ roundTiesDown (k + 1 / 2) = k := by
  unfold roundTiesUp roundTiesDown
  constructor
  · have : ((k : ℚ) + 1 / 2 + 1 / 2) = ((k + 1 : ℤ) : ℚ) := by push_cast; ring
    rw [this, Int.floor_intCast]
  · have : ((k : ℚ) + 1 / 2 - 1 / 2) = (k : ℚ) := by ring
    rw [this, Int.ceil_intCast]

theorem tiles_length (r : Row) : r.tiles.length = (r.maxCol + 1 - r.minCol).toNat := by
  simp [Row.tiles]

theorem tiles_get? (r : Row) (i : Nat) (h : i < r.tiles.length) :
    r.tiles.get? i = some { x := r.depth, y := r.minCol + (i : Int) } := by
  rw [tiles_length] at h
  simp [Row.tiles, List.get?_eq_getElem?, List.getElem?_map, List.getElem?_range h]

theorem mem_tiles (r : Row) (t : Tile) :
    t ∈ r.tiles ↔ t.x = r.depth ∧ r.minCol ≤ t.y ∧ t.y ≤ r.maxCol := by
  simp only [Row.tiles, List.mem_map, List.mem_range]
  constructor
  · rintro ⟨i, hi, rfl⟩
    refine ⟨rfl, by simp, ?_⟩
    simp only
    omega
  · rintro ⟨hx, h1, h2⟩
    refine ⟨(t.y - r.minCol).toNat, by omega, ?_⟩
    cases t
    simp only at hx h1 h2 ⊢
    subst hx
    congr 1
    omega

theorem tiles_pairwise (r : Row) : r.tiles.Pairwise (fun a b => a.y < b.y) := by
  unfold Row.tiles
  rw [List.pairwise_map]
  apply List.Pairwise.imp _ (List.pairwise_lt_range _)
  intro a b hab
  simp only
  omega

theorem handler_st (e : Err) (st : St) : (handler e st).st = st := by
  unfold handler; split <;> rfl

/-- A relation between the state before and the state after that is reflexive,
transitive and kept by every reveal of a tile of depth at least 1 is kept by a
whole row scan, provided the recursive calls keep it. -/
theorem scanTiles_relSt (R : St → St → Prop)
    (hrefl : ∀ s, R s s) (htrans : ∀ a b c, R a b → R b c → R a c)
    (transparency : List (List Int)) (q : Quadrant)
    (hreveal : ∀ (s : St) v2 t, 1 ≤ t.x → reveal q s.vis t = .ok v2 → R s { s with vis := v2 })
    (rec : Row → St → Res)
    (hrec : ∀ row st, 1 ≤ row.depth → R st (rec row st).st) :
    ∀ (tiles : List Tile) (row : Row) (prevTile : Tile) (st : St), 1 ≤ row.depth →
      (∀ t ∈ tiles, t.x = row.depth) →
      R st (scanTiles rec transparency q tiles row prevTile st).st := by
  intro tiles
  induction tiles with
  | nil =>
    intro row prevTile st hd _
    unfold scanTiles
    split
    · exact hrefl _
    · exact hrefl _
    · exact hrec _ _ (by simp [Row.next]; omega)
  | cons tile rest ih =>
    intro row prevTile st hd htiles
    have htx : tile.x = row.depth := htiles tile (List.mem_cons_self _ _)
    have hrest : ∀ (row2 : Row), row2.depth = row.depth → ∀ t ∈ rest, t.x = row2.depth := by
      intro row2 h2 t ht
      rw [h2]
      exact htiles t (List.mem_cons_of_mem _ ht)
    unfold scanTiles
    split
    · rw [handler_st]; exact hrefl _
    · split
      · rw [handler_st]; exact hrefl _
      · rename_i w _ vis1 hvis
        have hR1 : R st { st with vis := vis1 } := by
          split at hvis
          · exact hreveal _ _ _ (by omega) hvis
          · cases hvis; exact hrefl _
        simp only
        split
        · rw [handler_st]; exact hR1
        · split
          · rw [handler_st]; exact hR1
          · rename_i c1 _
            have hd1 : (if c1 = true then { row with startSlope := slope tile } else row).depth
                = row.depth := by split <;> rfl
            split
            · rw [handler_st]; exact hR1
            · split
              · rw [handler_st]; exact hR1
              · exact htrans _ _ _ hR1
                  (ih _ tile { st with vis := vis1 } (by rw [hd1]; exact hd) (hrest _ hd1))
              · have hR2 := hrec
                  { (if c1 = true then { row with startSlope := slope tile } else row).next with
                    endSlope := slope tile } { st with vis := vis1 }
                  (by simp only [Row.next]; rw [hd1]; omega)
                split
                · exact htrans _ _ _ hR1 (htrans _ _ _ hR2
                    (ih _ tile _ (by rw [hd1]; exact hd) (hrest _ hd1)))
                · rw [handler_st]; exact htrans _ _ _ hR1 hR2
                · exact htrans _ _ _ hR1 hR2

theorem scan_relSt (R : St → St → Prop)
    (hrefl : ∀ s, R s s) (htrans : ∀ a b c, R a b → R b c → R a c)
    (junk : Nat → Tile) (transparency : List (List Int)) (q : Quadrant)
    (hreveal : ∀ (s : St) v2 t, 1 ≤ t.x → reveal q s.vis t = .ok v2 → R s { s with vis := v2 })
    (hcall : ∀ s : St, R s { s with calls := s.calls + 1 }) :
    ∀ (fuel : Nat) (row : Row) (st : St), 1 ≤ row.depth →
      R st (scan junk transparency q fuel row st).st := by
  intro fuel
  induction fuel with
  | zero => intro row st _; exact hrefl _
  | succ n ih =>
    intro row st hd
    unfold scan
    exact htrans _ _ _ (hcall st)
      (scanTiles_relSt R hrefl htrans transparency q hreveal _ ih row.tiles row _
        { st with calls := st.calls + 1 } hd (fun t ht => by
          simp only [Row.tiles, List.mem_map] at ht
          obtain ⟨i, _, rfl⟩ := ht
          rfl))

/-- The same for a relation between the visibility maps alone. -/
theorem scan_rel (R : List (List Bool) → List (List Bool) → Prop)
    (hrefl : ∀ v, R v v) (htrans : ∀ a b c, R a b → R b c → R a c)
    (junk : Nat → Tile) (transparency : List (List Int)) (q : Quadrant)
    (hreveal : ∀ v v2 t, 1 ≤ t.x → reveal q v t = .ok v2 → R v v2)
    (fuel : Nat) (row : Row) (st : St) (hd : 1 ≤ row.depth) :
    R st.vis (scan junk transparency q fuel row st).st.vis :=
  scan_relSt (fun a b => R a.vis b.vis) (fun s => hrefl s.vis)
    (fun a b c => htrans a.vis b.vis c.vis) junk transparency q
    (fun s v2 t ht h => hreveal s.vis v2 t ht h) (fun s => hrefl s.vis) fuel row st hd

theorem insertAt_length {α : Type} (n : Nat) (a : α) (l : List α) :
    (insertAt n a l).length = l.length + 1 := by
  induction l generalizing n with
  | nil => cases n <;> simp [insertAt]
  | cons b l ih => cases n <;> simp [insertAt, ih]

theorem insertAt_getElem?_lt {α : Type} (n : Nat) (a : α) (l : List α) (i : Nat)
    (hn : n ≤ l.length) (hi : i < n) : (insertAt n a l)[i]? = l[i]? := by
  induction l generalizing n i with
  | nil => simp at hn; omega
  | cons b l ih =>
    cases n with
    | zero => omega
    | succ n =>
      cases i with
      | zero => simp [insertAt]
      | succ i =>
        simp only [insertAt, List.getElem?_cons_succ]
        exact ih n i (by simpa using hn) (by omega)

theorem insertAt_getElem?_eq {α : Type} (n : Nat) (a : α) (l : List α)
    (hn : n ≤ l.length) : (insertAt n a l)[n]? = some a := by
  induction l generalizing n with
  | nil => simp at hn; subst hn; simp [insertAt]
  | cons b l ih =>
    cases n with
    | zero => simp [insertAt]
    | succ n =>
      simp only [insertAt, List.getElem?_cons_succ]
      exact ih n (by simpa using hn)

theorem insertAt_getElem?_ge {α : Type} (n : Nat) (a : α) (l : List α) (i : Nat)
    (hn : n ≤ l.length) (hi : n ≤ i) : (insertAt n a l)[i + 1]? = l[i]? := by
  induction l generalizing n i with
  | nil => simp at hn; subst hn; simp [insertAt]
  | cons b l ih =>
    cases n with
    | zero => simp [insertAt]
    | succ n =>
      cases i with
      | zero => omega
      | succ i =>
        simp only [insertAt, List.getElem?_cons_succ]
        exact ih n i (by simpa using hn) (by omega)

/-- What a successful `setTile` leaves in place: every other row, and the
entries of the target row in front of the insert position. -/
theorem setTile_cellAt_frame (v v2 : List (List Bool)) (t : Tile) (val : Bool)
    (h : setTile v t val = .ok v2) (x y : Int) (hxy : y ≠ t.y ∨ x < t.x) :
    cellAt v2 x y = cellAt v x y := by
  unfold setTile at h
  split at h
  · rename_i hpos
    split at h
    · cases h
    · rename_i cells hline
      split at h
      · rename_i hlen
        cases h
        unfold cellAt
        split
        · rename_i hxy0
          by_cases hy : y = t.y
          · subst hy
            have hx : x < t.x := by
              rcases hxy with h1 | h1
              · exact absurd rfl h1
              · exact h1
            have hlt : t.y.toNat < v.length := by
              rcases Nat.lt_or_ge t.y.toNat v.length with h1 | h1
              · exact h1
              · rw [List.getElem?_eq_none h1] at hline; cases hline
            simp only [List.getElem?_set_self hlt, hline]
            exact insertAt_getElem?_lt _ _ _ _ hlen (by omega)
          · have hne : t.y.toNat ≠ y.toNat := by omega
            rw [List.getElem?_set_ne hne]
        · rfl
      · cases h
  · cases h

theorem setTile_cellAt_self (v v2 : List (List Bool)) (t : Tile) (val : Bool)
    (h : setTile v t val = .ok v2) : cellAt v2 t.x t.y = some val := by
  unfold setTile at h
  split at h
  · rename_i hpos
    split at h
    · cases h
    · rename_i cells hline
      split at h
      · rename_i hlen
        cases h
        have hlt : t.y.toNat < v.length := by
          rcases Nat.lt_or_ge t.y.toNat v.length with h1 | h1
          · exact h1
          · rw [List.getElem?_eq_none h1] at hline; cases hline
        unfold cellAt
        rw [if_pos hpos]
        simp only [List.getElem?_set_self hlt]
        exact insertAt_getElem?_eq _ _ _ hlen
      · cases h
  · cases h

theorem reveal_frame (q : Quadrant) (v v2 : List (List Bool)) (t : Tile) (ht : 1 ≤ t.x)
    (h : reveal q v t = .ok v2) : FrameRel q.origin.1 q.origin.2 v v2 := by
  intro x y hx hy
  unfold reveal at h
  split at h
  · cases h
  · rename_i coords hc
    apply setTile_cellAt_frame _ _ _ _ h
    simp only
    unfold Quadrant.transform at hc
    simp only at hc
    split_ifs at hc <;> cases hc <;> simp only <;> omega

theorem scan_frame (junk : Nat → Tile) (transparency : List (List Int)) (q : Quadrant)
    (fuel : Nat) (row : Row) (st : St) (hd : 1 ≤ row.depth) :
    FrameRel q.origin.1 q.origin.2 st.vis (scan junk transparency q fuel row st).st.vis :=
  scan_rel (FrameRel q.origin.1 q.origin.2) (fun _ _ _ _ _ => rfl)
    (fun _ _ _ hab hbc x y hx hy => (hbc x y hx hy).trans (hab x y hx hy))
    junk transparency q (reveal_frame q) fuel row st hd

theorem quadrantLoop_frame (fuel : Nat) (junk : Nat → Tile) (transparency : List (List Int))
    (origin : Int × Int) (order : List Int) (st : St) :
    FrameRel origin.1 origin.2 st.vis
      (quadrantLoop fuel junk transparency origin order st).st.vis := by
  induction order generalizing st with
  | nil => intro x y _ _; rfl
  | cons i rest ih =>
    unfold quadrantLoop
    have h1 := scan_frame junk transparency { cardinal := i, origin := origin } fuel firstRow st
      (by decide)
    simp only
    split
    · intro x y hx hy
      rw [ih _ x y hx hy]
      exact h1 x y hx hy
    · exact h1

theorem setTile_ok_of_le (v : List (List Bool)) (cells : List Bool) (t : Tile) (val : Bool)
    (hy : 0 ≤ t.y) (hx : 0 ≤ t.x) (hrow : v[t.y.toNat]? = some cells)
    (hlen : t.x.toNat ≤ cells.length) :
    setTile v t val = .ok (v.set t.y.toNat (insertAt t.x.toNat val cells)) := by
  unfold setTile
  rw [if_pos ⟨hy, hx⟩]
  simp only [hrow]
  rw [if_pos hlen]

theorem initialMap_getElem? (transparency : List (List Int)) (k : Nat) :
    (initialMap transparency)[k]? =
      (transparency[k]?).map (fun cells => cells.map (fun _ => false)) := by
  simp [initialMap, List.getElem?_map]

theorem rectangular_row {α : Type} (grid : List (List α)) (w h : Nat)
    (hrect : Rectangular grid w h) (y : Int) (hy0 : 0 ≤ y) (hy1 : y < h) :
    ∃ cells, grid[y.toNat]? = some cells ∧ cells.length = w := by
  have hlt : y.toNat < grid.length := by rw [hrect.1]; omega
  refine ⟨grid[y.toNat], List.getElem?_eq_getElem hlt, hrect.2 _ (List.getElem_mem _)⟩

/-- The origin write of `updateFOV` succeeds for an in-bounds origin. -/
theorem origin_write_ok (transparency : List (List Int)) (w h : Nat) (ox oy : Int)
    (hrect : Rectangular transparency w h)
    (hx0 : 0 ≤ ox) (hx1 : ox < w) (hy0 : 0 ≤ oy) (hy1 : oy < h) :
    ∃ vis, setTile (initialMap transparency) { x := ox, y := oy } true = .ok vis := by
  obtain ⟨cells, hc, hl⟩ := rectangular_row transparency w h hrect oy hy0 hy1
  refine ⟨_, setTile_ok_of_le _ (cells.map (fun _ => false)) _ _ hy0 hx0 ?_ ?_⟩
  · rw [initialMap_getElem?]; simp [hc]
  · simp only [List.length_map, hl]; omega

theorem firstRow_tiles : firstRow.tiles = [⟨1, -1⟩, ⟨1, 0⟩, ⟨1, 1⟩] := by decide!

theorem GrowRel.refl (v : List (List Bool)) : GrowRel v v :=
  ⟨rfl, fun _ cells h => ⟨cells, h, le_refl _⟩⟩

theorem GrowRel.trans (a b c : List (List Bool)) (hab : GrowRel a b) (hbc : GrowRel b c) :
    GrowRel a c := by
  refine ⟨hbc.1.trans hab.1, fun k cells h => ?_⟩
  obtain ⟨c2, h2, l2⟩ := hab.2 k cells h
  obtain ⟨c3, h3, l3⟩ := hbc.2 k c2 h2
  exact ⟨c3, h3, le_trans l2 l3⟩

theorem setTile_grow (v v2 : List (List Bool)) (t : Tile) (val : Bool)
    (h : setTile v t val = .ok v2) : GrowRel v v2 := by
  unfold setTile at h
  split at h
  · split at h
    · cases h
    · rename_i cells0 hrow
      split at h
      · cases h
        refine ⟨by simp, fun k cells hk => ?_⟩
        by_cases hkt : t.y.toNat = k
        · subst hkt
          rw [hrow] at hk
          cases hk
          have hlt : t.y.toNat < v.length := by
            rcases Nat.lt_or_ge t.y.toNat v.length with h1 | h1
            · exact h1
            · rw [List.getElem?_eq_none h1] at hrow; cases hrow
          refine ⟨_, List.getElem?_set_self hlt, ?_⟩
          rw [insertAt_length]; omega
        · exact ⟨cells, by rw [List.getElem?_set_ne hkt]; exact hk, le_refl _⟩
      · cases h
  · cases h

theorem reveal_grow (q : Quadrant) (v v2 : List (List Bool)) (t : Tile)
    (h : reveal q v t = .ok v2) : GrowRel v v2 := by
  unfold reveal at h
  split at h
  · cases h
  · exact setTile_grow _ _ _ _ h

theorem scan_grow (junk : Nat → Tile) (transparency : List (List Int)) (q : Quadrant)
    (fuel : Nat) (row : Row) (st : St) (hd : 1 ≤ row.depth) :
    GrowRel st.vis (scan junk transparency q fuel row st).st.vis :=
  scan_rel GrowRel GrowRel.refl GrowRel.trans junk transparency q
    (fun v v2 t _ h => reveal_grow q v v2 t h) fuel row st hd

theorem quadrantLoop_grow (fuel : Nat) (junk : Nat → Tile) (transparency : List (List Int))
    (origin : Int × Int) (order : List Int) (st : St) :
    GrowRel st.vis (quadrantLoop fuel junk transparency origin order st).st.vis := by
  induction order generalizing st with
  | nil => exact GrowRel.refl _
  | cons i rest ih =>
    unfold quadrantLoop
    have h1 := scan_grow junk transparency { cardinal := i, origin := origin } fuel firstRow st
      (by decide)
    simp only
    split
    · exact GrowRel.trans _ _ _ h1 (ih _)
    · exact h1

theorem cellAt_initialMap (transparency : List (List Int)) (w h : Nat)
    (hrect : Rectangular transparency w h) (x y : Int)
    (hx0 : 0 ≤ x) (hx1 : x < w) (hy0 : 0 ≤ y) (hy1 : y < h) :
    cellAt (initialMap transparency) x y = some false := by
  obtain ⟨cells, hc, hl⟩ := rectangular_row transparency w h hrect y hy0 hy1
  unfold cellAt
  rw [if_pos ⟨hy0, hx0⟩, initialMap_getElem?]
  simp only [hc, Option.map_some']
  rw [List.getElem?_map, List.getElem?_eq_getElem (by omega)]
  rfl

/-- No run of `updateFOV` ever changes a cell that lies at or before the origin
in both coordinates: apart from the origin they all stay `false`. -/
theorem updateFOV_before_origin (fuel : Nat) (junk : Nat → Tile)
    (transparency : List (List Int)) (w h : Nat) (ox oy : Int)
    (hrect : Rectangular transparency w h)
    (hx1 : ox < w) (hy1 : oy < h) (x y : Int)
    (hx0 : 0 ≤ x) (hxo : x ≤ ox) (hy0 : 0 ≤ y) (hyo : y ≤ oy) (hne : y ≠ oy ∨ x < ox) :
    cellAt (updateFOV fuel junk transparency (ox, oy)).st.vis x y = some false := by
  obtain ⟨vis, hvis⟩ := origin_write_ok transparency w h ox oy hrect (by omega) hx1
    (by omega) hy1
  unfold updateFOV updateFOVOrder
  simp only [hvis]
  rw [quadrantLoop_frame fuel junk transparency (ox, oy) [0, 1, 2, 3] { vis := vis, calls := 0 }
    x y hxo hyo]
  rw [setTile_cellAt_frame _ _ _ _ hvis x y hne]
  exact cellAt_initialMap transparency w h hrect x y hx0 (by omega) hy0 (by omega)

theorem tiles_empty_of_lt (r : Row) (h : r.maxCol < r.minCol) : r.tiles = [] := by
  rw [← List.length_eq_zero, tiles_length]; omega

theorem narrowRow_tiles (D : Int) (hD : 2 ≤ D) :
    (Row.mk D (3 / 4) (1 / 2)).tiles = [] := by
  apply tiles_empty_of_lt
  have h1 : (Row.mk D (3 / 4) (1 / 2)).maxCol ≤ D / 2 := by
    unfold Row.maxCol roundTiesDown
    rw [Int.ceil_le]
    have : D ≤ 2 * (D / 2) + 1 := by omega
    have hq : (D : ℚ) ≤ 2 * ((D / 2 : Int) : ℚ) + 1 := by exact_mod_cast this
    show (D : ℚ) * (1 / 2) - 1 / 2 ≤ ((D / 2 : Int) : ℚ)
    linarith
  have h2 : D / 2 + 1 ≤ (Row.mk D (3 / 4) (1 / 2)).minCol := by
    unfold Row.minCol roundTiesUp
    rw [Int.le_floor]
    have : 2 * (D / 2) ≤ D := by omega
    have hq : 2 * ((D / 2 : Int) : ℚ) ≤ (D : ℚ) := by exact_mod_cast this
    have hD2 : (2 : ℚ) ≤ (D : ℚ) := by exact_mod_cast hD
    show ((D / 2 + 1 : Int) : ℚ) ≤ (D : ℚ) * (3 / 4) + 1 / 2
    push_cast
    linarith
  omega

theorem isFloor_of_isWall (transparency : List (List Int)) (q : Quadrant) (t : Tile) (w : Bool)
    (h : isWall transparency q t = .ok w) : isFloor transparency q t = .ok (!w) := by
  unfold isWall at h
  unfold isFloor
  split at h
  · cases h
  · split at h
    · cases h
    · cases h
      simp [bne]

theorem isFloor_error_of_isWall (transparency : List (List Int)) (q : Quadrant) (t : Tile)
    (e : Err) (h : isWall transparency q t = .error e) :
    isFloor transparency q t = .error e := by
  unfold isWall at h
  unfold isFloor
  split at h
  · exact h
  · split at h
    · exact h
    · cases h

/-- A tile of the same kind as its predecessor, or a wall after a wall. -/
theorem scanTiles_cons_same (rec : Row → St → Res) (transparency : List (List Int))
    (q : Quadrant) (tile : Tile) (rest : List Tile) (row : Row) (prevTile : Tile) (st : St)
    (w pw : Bool) (vis1 : List (List Bool))
    (hw : isWall transparency q tile = .ok w) (hpw : isWall transparency q prevTile = .ok pw)
    (hsame : w = pw)
    (hrev : (if w || isSymmetric row tile then reveal q st.vis tile else .ok st.vis)
      = .ok vis1) :
    scanTiles rec transparency q (tile :: rest) row prevTile st =
      scanTiles rec transparency q rest row tile { st with vis := vis1 } := by
  subst hsame
  rw [scanTiles, hw]
  simp only [hrev, hpw, isFloor_of_isWall _ _ _ _ hw, isFloor_of_isWall _ _ _ _ hpw]
  cases w <;> simp

/-- A floor tile after a wall: the start slope is reset (fov.h:95). -/
theorem scanTiles_cons_wallFloor (rec : Row → St → Res) (transparency : List (List Int))
    (q : Quadrant) (tile : Tile) (rest : List Tile) (row : Row) (prevTile : Tile) (st : St)
    (vis1 : List (List Bool))
    (hw : isWall transparency q tile = .ok false)
    (hpw : isWall transparency q prevTile = .ok true)
    (hrev : (if isSymmetric row tile then reveal q st.vis tile else .ok st.vis) = .ok vis1) :
    scanTiles rec transparency q (tile :: rest) row prevTile st =
      scanTiles rec transparency q rest { row with startSlope := slope tile } tile
        { st with vis := vis1 } := by
  rw [scanTiles, hw]
  simp only [Bool.false_or, hrev, hpw, isFloor_of_isWall _ _ _ _ hw,
    isFloor_of_isWall _ _ _ _ hpw]
  simp

/-- A wall tile after a floor: the child row is scanned (fov.h:100-102). -/
theorem scanTiles_cons_floorWall (rec : Row → St → Res) (transparency : List (List Int))
    (q : Quadrant) (tile : Tile) (rest : List Tile) (row : Row) (prevTile : Tile) (st : St)
    (vis1 : List (List Bool))
    (hw : isWall transparency q tile = .ok true)
    (hpw : isWall transparency q prevTile = .ok false)
    (hrev : reveal q st.vis tile = .ok vis1) :
    scanTiles rec transparency q (tile :: rest) row prevTile st =
      match (rec { row.next with endSlope := slope tile } { st with vis := vis1 }).status with
      | .done => scanTiles rec transparency q rest row tile
          (rec { row.next with endSlope := slope tile } { st with vis := vis1 }).st
      | .threw e => handler e (rec { row.next with endSlope := slope tile }
          { st with vis := vis1 }).st
      | .outOfFuel => rec { row.next with endSlope := slope tile } { st with vis := vis1 } := by
  rw [scanTiles, hw]
  simp only [Bool.true_or, if_true, hrev, hpw, isFloor_of_isWall _ _ _ _ hw,
    isFloor_of_isWall _ _ _ _ hpw]
  simp

/-- After the last tile: a floor continues with the next row (fov.h:111-113). -/
theorem scanTiles_nil_floor (rec : Row → St → Res) (transparency : List (List Int))
    (q : Quadrant) (row : Row) (prevTile : Tile) (st : St)
    (hf : isFloor transparency q prevTile = .ok true) :
    scanTiles rec transparency q [] row prevTile st = rec row.next st := by
  rw [scanTiles, hf]

theorem transform_ok_of_valid (q : Quadrant) (hq : q.Valid) (t : Tile) :
    ∃ coords, q.transform t = .ok coords := by
  unfold Quadrant.transform
  rcases hq with h | h | h | h <;> simp [h]

theorem slope_lt_one (t : Tile) (h : 1 ≤ t.x) : slope t < 1 := by
  unfold slope
  have hx : (1 : ℚ) ≤ (t.x : ℚ) := by exact_mod_cast h
  simp only
  rw [div_lt_one (by linarith)]
  linarith

end fov

namespace grid

theorem set_of_getElem? {α : Type} (l : List α) (i : Nat) (a : α) (h : l[i]? = some a) :
    l.set i a = l := by
  apply List.ext_getElem?
  intro j
  by_cases hij : i = j
  · subst hij
    rw [List.getElem?_set_self' , h]
    simp
  · rw [List.getElem?_set_ne hij]

theorem at2_eq {U : Type} (a : List (List U)) (y x : Nat) :
    at2 a y x = match ((a[y]?).getD [])[x]? with
      | none => .error .out_of_range
      | some u => .ok u := by
  unfold at2
  cases a[y]? <;> simp

theorem getElem?_append_length {α : Type} (pre : List α) (t : α) (ts : List α) :
    (pre ++ t :: ts)[pre.length]? = some t := by
  induction pre with
  | nil => simp
  | cons p ps ih => simpa using ih

theorem getTile_append {T : Type} (g : Grid T) (y : Nat) (pre : List T) (t : T) (ts : List T)
    (h : g.data[y]? = some (pre ++ t :: ts)) : g.getTile pre.length y = .ok t := by
  unfold Grid.getTile
  simp only [Int.toNat_ofNat, h, getElem?_append_length]
  simp

theorem setTile_append {T : Type} (g : Grid T) (y : Nat) (pre : List T) (t v : T)
    (ts : List T) (h : g.data[y]? = some (pre ++ t :: ts)) :
    g.setTile v pre.length y = .ok { g with data := g.data.set y (pre ++ v :: ts) } := by
  unfold Grid.setTile
  simp [h]

/-- The inner loop of `fillAttributes`, with the cells `pre` of row `y` already
visited and the cells `suf` still to visit. -/
theorem fillCellsFrom_spec {T U : Type} (a : List (List U)) (s : T → U → T) (y : Nat) :
    ∀ (suf pre : List T) (g : Grid T) (asuf : List U),
      g.data[y]? = some (pre ++ suf) → ((a[y]?).getD []).drop pre.length = asuf →
      (suf.length ≤ asuf.length →
        fillCellsFrom a s y suf.length pre.length g =
          (none, { g with data := g.data.set y (pre ++ List.zipWith s suf asuf) })) ∧
      (asuf.length < suf.length →
        (fillCellsFrom a s y suf.length pre.length g).1 = some .out_of_range) := by
  intro suf
  induction suf with
  | nil =>
    intro pre g asuf hrow _
    constructor
    · intro _
      simp only [List.length_nil, fillCellsFrom, List.zipWith_nil_left]
      rw [set_of_getElem? _ _ _ hrow]
    · intro h; simp at h
  | cons t ts ih =>
    intro pre g asuf hrow hdrop
    have hget := getTile_append g y pre t ts hrow
    have hset := fun v => setTile_append g y pre t v ts hrow
    have hat : ((a[y]?).getD [])[pre.length]? = asuf[0]? := by
      rw [← hdrop]; simp
    cases asuf with
    | nil =>
      constructor
      · intro h; simp at h
      · intro _
        simp only [List.length_cons, fillCellsFrom, hget, at2_eq, hat]
        rfl
    | cons u us =>
      have hdrop2 : ((a[y]?).getD []).drop (pre ++ [s t u]).length = us := by
        have : (pre ++ [s t u]).length = pre.length + 1 := by simp
        rw [this, ← List.drop_drop, hdrop]
        rfl
      have hrow2 : ({ g with data := g.data.set y (pre ++ s t u :: ts) } : Grid T).data[y]?
          = some ((pre ++ [s t u]) ++ ts) := by
        have hlt : y < g.data.length := by
          rcases Nat.lt_or_ge y g.data.length with h1 | h1
          · exact h1
          · rw [List.getElem?_eq_none h1] at hrow; cases hrow
        simp [List.getElem?_set_self hlt]
      have hlen : (pre ++ [s t u]).length = pre.length + 1 := by simp
      obtain ⟨ih1, ih2⟩ := ih (pre ++ [s t u])
        { g with data := g.data.set y (pre ++ s t u :: ts) } us hrow2 hdrop2
      rw [hlen] at ih1 ih2
      constructor
      · intro h
        simp only [List.length_cons, fillCellsFrom, hget, at2_eq, hat, hset]
        simp only [List.getElem?_cons_zero]
        rw [ih1 (by simpa using h)]
        simp
      · intro h
        simp only [List.length_cons, fillCellsFrom, hget, at2_eq, hat, hset]
        simp only [List.getElem?_cons_zero]
        exact ih2 (by simpa using h)

theorem set_append_length {α : Type} (pre : List α) (t v : α) (ts : List α) :
    (pre ++ t :: ts).set pre.length v = pre ++ v :: ts := by
  induction pre with
  | nil => simp
  | cons p ps ih => simp [ih]

/-- The outer loop of `fillAttributes`, with the rows `pre` already visited and
the rows `suf` still to visit. -/
theorem fillRowsFrom_spec {T U : Type} (a : List (List U)) (s : T → U → T) :
    ∀ (suf pre : List (List T)) (g : Grid T), g.data = pre ++ suf →
      (CoveredFrom a pre.length suf →
        fillRowsFrom a s suf.length pre.length g =
          (none, { g with data := pre ++ fillData a s pre.length suf })) ∧
      (¬ CoveredFrom a pre.length suf →
        (fillRowsFrom a s suf.length pre.length g).1 = some .out_of_range) := by
  intro suf
  induction suf with
  | nil =>
    intro pre g hdata
    constructor
    · intro _
      simp only [List.length_nil, fillRowsFrom, fillData, List.append_nil]
      rw [← List.append_nil pre, ← hdata]
    · intro h; exact absurd trivial h
  | cons cells rest ih =>
    intro pre g hdata
    have hrow : g.data[pre.length]? = some ([] ++ cells) := by
      rw [hdata, getElem?_append_length]; rfl
    obtain ⟨h1, h2⟩ := fillCellsFrom_spec a s pre.length cells [] g
      ((a[pre.length]?).getD []) hrow rfl
    have hlen : ((g.data[pre.length]?).getD []).length = cells.length := by
      rw [hrow]; rfl
    have hset : g.data.set pre.length ([] ++ List.zipWith s cells ((a[pre.length]?).getD []))
        = (pre ++ [List.zipWith s cells ((a[pre.length]?).getD [])]) ++ rest := by
      rw [hdata, set_append_length]; simp
    have hlen2 : (pre ++ [List.zipWith s cells ((a[pre.length]?).getD [])]).length
        = pre.length + 1 := by simp
    simp only [List.length_cons, fillRowsFrom, hlen, List.length_nil] at h1 h2 ⊢
    by_cases hc : cells.length ≤ ((a[pre.length]?).getD []).length
    · rw [h1 hc]
      obtain ⟨ih1, ih2⟩ := ih (pre ++ [List.zipWith s cells ((a[pre.length]?).getD [])])
        ⟨g.width, g.height,
          g.data.set pre.length ([] ++ List.zipWith s cells ((a[pre.length]?).getD []))⟩ hset
      rw [hlen2] at ih1 ih2
      constructor
      · intro hcov
        simp only
        rw [ih1 hcov.2]
        simp [fillData]
      · intro hcov
        simp only
        exact ih2 (fun h => hcov ⟨hc, h⟩)
    · have hfail := h2 (by omega)
      constructor
      · intro hcov; exact absurd hcov.1 hc
      · intro _
        cases hr : (fillCellsFrom a s pre.length cells.length 0 g).1 with
        | none => rw [hr] at hfail; cases hfail
        | some e =>
          simp only [hr] at hfail ⊢
          exact hfail

theorem coveredFrom_iff {T U : Type} (a : List (List U)) (w : Nat) :
    ∀ (rows : List (List T)) (y0 : Nat), (∀ cells ∈ rows, cells.length = w) →
      (CoveredFrom a y0 rows ↔ ∀ i, i < rows.length → w ≤ ((a[y0 + i]?).getD []).length) := by
  intro rows
  induction rows with
  | nil => intro y0 _; simp [CoveredFrom]
  | cons cells rest ih =>
    intro y0 hw
    have hc : cells.length = w := hw cells (List.mem_cons_self _ _)
    have ih2 := ih (y0 + 1) (fun c hcm => hw c (List.mem_cons_of_mem _ hcm))
    simp only [CoveredFrom, ih2, hc, List.length_cons]
    constructor
    · rintro ⟨h0, h1⟩ i hi
      cases i with
      | zero => simpa using h0
      | succ j =>
        have := h1 j (by omega)
        rwa [show y0 + (j + 1) = y0 + 1 + j by omega]
    · intro h
      refine ⟨by simpa using h 0 (by omega), fun i hi => ?_⟩
      have := h (i + 1) (by omega)
      rwa [show y0 + (i + 1) = y0 + 1 + i by omega] at this

theorem fillData_getElem? {T U : Type} (a : List (List U)) (s : T → U → T) :
    ∀ (rows : List (List T)) (y0 i : Nat),
      (fillData a s y0 rows)[i]? =
        (rows[i]?).map (fun cells => List.zipWith s cells ((a[y0 + i]?).getD [])) := by
  intro rows
  induction rows with
  | nil => intro y0 i; simp [fillData]
  | cons cells rest ih =>
    intro y0 i
    cases i with
    | zero => simp [fillData]
    | succ j =>
      simp only [fillData, List.getElem?_cons_succ, ih]
      rw [show y0 + 1 + j = y0 + (j + 1) by omega]

theorem fillData_length {T U : Type} (a : List (List U)) (s : T → U → T) :
    ∀ (rows : List (List T)) (y0 : Nat), (fillData a s y0 rows).length = rows.length := by
  intro rows
  induction rows with
  | nil => intro y0; rfl
  | cons cells rest ih => intro y0; simp [fillData, ih]

theorem zipWith_map_self {T U : Type} (f : T → U) (s : T → U → T) (hs : ∀ t, s t (f t) = t)
    (cells : List T) : List.zipWith s cells (cells.map f) = cells := by
  induction cells with
  | nil => rfl
  | cons t ts ih => simp [hs, ih]

theorem fillData_extract {T U : Type} (f : T → U) (s : T → U → T) (hs : ∀ t, s t (f t) = t) :
    ∀ (rows : List (List T)) (y0 : Nat) (a : List (List U)),
      (∀ i, a[y0 + i]? = (rows[i]?).map (fun cells => cells.map f)) →
      CoveredFrom a y0 rows ∧ fillData a s y0 rows = rows := by
  intro rows
  induction rows with
  | nil => intro y0 a _; exact ⟨trivial, rfl⟩
  | cons cells rest ih =>
    intro y0 a ha
    have h0 : a[y0]? = some (cells.map f) := by simpa using ha 0
    obtain ⟨ih1, ih2⟩ := ih (y0 + 1) a (fun i => by
      have := ha (i + 1)
      rw [show y0 + (i + 1) = y0 + 1 + i by omega] at this
      simpa using this)
    refine ⟨⟨by simp [h0], ih1⟩, ?_⟩
    simp only [fillData, h0, Option.getD_some, zipWith_map_self f s hs, ih2]

end grid

namespace fov

/-- The traced row scan computes what the row scan computes. -/
theorem scanTilesT_fst (rec : Row → St → Res) (recT : Row → St → Res × List Event)
    (hrec : ∀ r s, (recT r s).1 = rec r s) (transparency : List (List Int)) (q : Quadrant) :
    ∀ (tiles : List Tile) (row : Row) (prevTile : Tile) (st : St),
      (scanTilesT recT transparency q tiles row prevTile st).1 =
        scanTiles rec transparency q tiles row prevTile st := by
  intro tiles
  induction tiles with
  | nil =>
    intro row prevTile st
    rw [scanTilesT, scanTiles]
    split <;> simp [logged, hrec]
  | cons tile rest ih =>
    intro row prevTile st
    rw [scanTilesT, scanTiles]
    split
    · rfl
    · split
      · rfl
      · simp only
        split
        · rfl
        · split
          · rfl
          · split
            · rfl
            · split
              · rfl
              · simp only [logged, ih]
              · simp only [hrec]
                split <;> simp [logged, ih]

theorem scanT_fst (junk : Nat → Tile) (transparency : List (List Int)) (q : Quadrant) :
    ∀ (fuel : Nat) (row : Row) (st : St),
      (scanT junk transparency q fuel row st).1 = scan junk transparency q fuel row st := by
  intro fuel
  induction fuel with
  | zero => intro row st; rfl
  | succ n ih =>
    intro row st
    rw [scanT, scan]
    exact scanTilesT_fst _ _ ih transparency q _ _ _ _

theorem quadrantLoopT_fst (fuel : Nat) (junk : Nat → Tile) (transparency : List (List Int))
    (origin : Int × Int) :
    ∀ (order : List Int) (st : St),
      (quadrantLoopT fuel junk transparency origin order st).1 =
        quadrantLoop fuel junk transparency origin order st := by
  intro order
  induction order with
  | nil => intro st; rfl
  | cons i rest ih =>
    intro st
    rw [quadrantLoopT, quadrantLoop]
    simp only [scanT_fst]
    split <;> simp [logged, ih]

/-- The traced `updateFOV` computes what `updateFOV` computes. -/
theorem updateFOVOrderT_fst (order : List Int) (fuel : Nat) (junk : Nat → Tile)
    (transparency : List (List Int)) (origin : Int × Int) :
    (updateFOVOrderT order fuel junk transparency origin).1 =
      updateFOVOrder order fuel junk transparency origin := by
  unfold updateFOVOrderT updateFOVOrder
  split <;> simp [logged, quadrantLoopT_fst]

theorem updateFOVT_fst (fuel : Nat) (junk : Nat → Tile) (transparency : List (List Int))
    (origin : Int × Int) :
    (updateFOVT fuel junk transparency origin).1 = updateFOV fuel junk transparency origin :=
  updateFOVOrderT_fst _ _ _ _ _

/-- The invariant principle for the traced row scan: `I` is a property of the
rows that are scanned, `R s evs s2` a relation between the state before, the
events recorded and the state after. If `R` holds for no event at all, is
closed under putting two stretches of a run one after the other, and holds for
every single step the loop can take on a row with `I`, and if `I` is kept by
every way the loop builds a row, then `R` holds for the whole row scan. -/
theorem scanTilesT_inv (I : Row → Prop) (R : St → List Event → St → Prop)
    (hnil : ∀ s, R s [] s)
    (happ : ∀ a l1 b l2 c, R a l1 b → R b l2 c → R a (l1 ++ l2) c)
    (transparency : List (List Int)) (q : Quadrant)
    (hreveal : ∀ (s : St) v2 row t, I row → t.x = row.depth → reveal q s.vis t = .ok v2 →
      R s (revealEvent q t) { s with vis := v2 })
    (hrestart : ∀ s row t, I row → t.x = row.depth →
      R s [Event.slope t, Event.restarted { row with startSlope := slope t }] s)
    (hchild : ∀ s row t, I row → t.x = row.depth →
      R s [Event.slope t, Event.child { row.next with endSlope := slope t }] s)
    (hcont : ∀ s row, I row → R s [Event.continuation row.next] s)
    (hIrestart : ∀ row t, I row → t.x = row.depth → I { row with startSlope := slope t })
    (hIchild : ∀ row t, I row → t.x = row.depth → I { row.next with endSlope := slope t })
    (hInext : ∀ row, I row → I row.next)
    (rec : Row → St → Res × List Event)
    (hrec : ∀ row st, I row → R st (rec row st).2 (rec row st).1.st) :
    ∀ (tiles : List Tile) (row : Row) (prevTile : Tile) (st : St), I row →
      (∀ t ∈ tiles, t.x = row.depth) →
      R st (scanTilesT rec transparency q tiles row prevTile st).2
        (scanTilesT rec transparency q tiles row prevTile st).1.st := by
  intro tiles
  induction tiles with
  | nil =>
    intro row prevTile st hI _
    rw [scanTilesT]
    split
    · exact hnil _
    · exact hnil _
    · exact happ _ _ _ _ _ (hcont st row hI) (hrec _ _ (hInext row hI))
  | cons tile rest ih =>
    intro row prevTile st hI htiles
    have htx : tile.x = row.depth := htiles tile (List.mem_cons_self _ _)
    have hrest : ∀ (row2 : Row), row2.depth = row.depth → ∀ t ∈ rest, t.x = row2.depth := by
      intro row2 h2 t ht
      rw [h2]
      exact htiles t (List.mem_cons_of_mem _ ht)
    rw [scanTilesT]
    split
    · rw [handler_st]; exact hnil _
    · split
      · rw [handler_st]; exact hnil _
      · rename_i w hw _ vis1 hvis
        have hR1 : R st (if (w || isSymmetric row tile) = true then revealEvent q tile else [])
            { st with vis := vis1 } := by
          split at hvis
          · rename_i hc
            rw [if_pos hc]
            exact hreveal _ _ _ _ hI htx hvis
          · rename_i hc
            rw [if_neg hc]
            cases hvis; exact hnil _
        simp only
        split
        · rw [handler_st]; exact hR1
        · split
          · rw [handler_st]; exact hR1
          · rename_i c1 _
            have hd1 : (if c1 = true then { row with startSlope := slope tile } else row).depth
                = row.depth := by split <;> rfl
            have hI1 : I (if c1 = true then { row with startSlope := slope tile } else row) := by
              split
              · exact hIrestart row tile hI htx
              · exact hI
            have hR2 : R { st with vis := vis1 }
                (if c1 = true then [Event.slope tile, Event.restarted
                  (if c1 = true then { row with startSlope := slope tile } else row)] else [])
                { st with vis := vis1 } := by
              split
              · exact hrestart _ row tile hI htx
              · exact hnil _
            have hR12 := happ _ _ _ _ _ hR1 hR2
            split
            · rw [handler_st]; exact hR12
            · split
              · rw [handler_st]; exact hR12
              · simp only [logged]
                exact happ _ _ _ _ _ hR12
                  (ih _ tile { st with vis := vis1 } hI1 (hrest _ hd1))
              · have hR3 := hchild { st with vis := vis1 } _ tile hI1 (by rw [hd1]; exact htx)
                have hR4 := hrec
                  { (if c1 = true then { row with startSlope := slope tile } else row).next with
                    endSlope := slope tile } { st with vis := vis1 }
                  (hIchild _ tile hI1 (by rw [hd1]; exact htx))
                have hR1234 := happ _ _ _ _ _ (happ _ _ _ _ _ hR12 hR3) hR4
                split
                · simp only [logged]
                  exact happ _ _ _ _ _ hR1234 (ih _ tile _ hI1 (hrest _ hd1))
                · rw [handler_st]; exact hR1234
                · exact hR1234

/-- The invariant principle for the traced `scan`. -/
theorem scanT_inv (I : Row → Prop) (R : St → List Event → St → Prop)
    (hnil : ∀ s, R s [] s)
    (happ : ∀ a l1 b l2 c, R a l1 b → R b l2 c → R a (l1 ++ l2) c)
    (hcall : ∀ s : St, R s [] { s with calls := s.calls + 1 })
    (junk : Nat → Tile) (transparency : List (List Int)) (q : Quadrant)
    (hreveal : ∀ (s : St) v2 row t, I row → t.x = row.depth → reveal q s.vis t = .ok v2 →
      R s (revealEvent q t) { s with vis := v2 })
    (hrestart : ∀ s row t, I row → t.x = row.depth →
      R s [Event.slope t, Event.restarted { row with startSlope := slope t }] s)
    (hchild : ∀ s row t, I row → t.x = row.depth →
      R s [Event.slope t, Event.child { row.next with endSlope := slope t }] s)
    (hcont : ∀ s row, I row → R s [Event.continuation row.next] s)
    (hIrestart : ∀ row t, I row → t.x = row.depth → I { row with startSlope := slope t })
    (hIchild : ∀ row t, I row → t.x = row.depth → I { row.next with endSlope := slope t })
    (hInext : ∀ row, I row → I row.next) :
    ∀ (fuel : Nat) (row : Row) (st : St), I row →
      R st (scanT junk transparency q fuel row st).2
        (scanT junk transparency q fuel row st).1.st := by
  intro fuel
  induction fuel with
  | zero => intro row st _; exact hnil _
  | succ n ih =>
    intro row st hI
    rw [scanT]
    have h := scanTilesT_inv I R hnil happ transparency q hreveal hrestart hchild hcont
      hIrestart hIchild hInext _ ih row.tiles row (junk st.calls)
      { st with calls := st.calls + 1 } hI (fun t ht => ((mem_tiles row t).1 ht).1)
    have h2 := happ _ _ _ _ _ (hcall st) h
    simpa using h2

/-- The invariant principle for the traced quadrant loop. -/
theorem quadrantLoopT_inv (I : Row → Prop) (R : St → List Event → St → Prop)
    (hnil : ∀ s, R s [] s)
    (happ : ∀ a l1 b l2 c, R a l1 b → R b l2 c → R a (l1 ++ l2) c)
    (hcall : ∀ s : St, R s [] { s with calls := s.calls + 1 })
    (fuel : Nat) (junk : Nat → Tile) (transparency : List (List Int)) (origin : Int × Int)
    (hreveal : ∀ (i : Int) (s : St) v2 row t, I row → t.x = row.depth →
      reveal { cardinal := i, origin := origin } s.vis t = .ok v2 →
      R s (revealEvent { cardinal := i, origin := origin } t) { s with vis := v2 })
    (hrestart : ∀ s row t, I row → t.x = row.depth →
      R s [Event.slope t, Event.restarted { row with startSlope := slope t }] s)
    (hchild : ∀ s row t, I row → t.x = row.depth →
      R s [Event.slope t, Event.child { row.next with endSlope := slope t }] s)
    (hcont : ∀ s row, I row → R s [Event.continuation row.next] s)
    (hfirst : ∀ s, R s [Event.first firstRow] s)
    (hIrestart : ∀ row t, I row → t.x = row.depth → I { row with startSlope := slope t })
    (hIchild : ∀ row t, I row → t.x = row.depth → I { row.next with endSlope := slope t })
    (hInext : ∀ row, I row → I row.next) (hIfirst : I firstRow) :
    ∀ (order : List Int) (st : St),
      R st (quadrantLoopT fuel junk transparency origin order st).2
        (quadrantLoopT fuel junk transparency origin order st).1.st := by
  intro order
  induction order with
  | nil => intro st; exact hnil _
  | cons i rest ih =>
    intro st
    rw [quadrantLoopT]
    have h1 := scanT_inv I R hnil happ hcall junk transparency
      { cardinal := i, origin := origin } (hreveal i) hrestart hchild hcont
      hIrestart hIchild hInext fuel firstRow st hIfirst
    have h2 := happ _ _ _ _ _ (hfirst st) h1
    simp only [List.singleton_append] at h2
    split
    · simp only [logged]
      exact happ _ _ _ _ _ h2 (ih _)
    · exact h2

/-- Every event of a traced `scan` has the property `P`, if every event the
loop can record on a row with `I` has it and `I` is kept by every way the loop
builds a row. -/
theorem scanT_all (I : Row → Prop) (P : Event → Prop)
    (junk : Nat → Tile) (transparency : List (List Int)) (q : Quadrant)
    (hreveal : ∀ row t, I row → t.x = row.depth → ∀ e ∈ revealEvent q t, P e)
    (hslope : ∀ row t, I row → t.x = row.depth → P (Event.slope t))
    (hrestart : ∀ row t, I row → t.x = row.depth →
      P (Event.restarted { row with startSlope := slope t }))
    (hchild : ∀ row t, I row → t.x = row.depth →
      P (Event.child { row.next with endSlope := slope t }))
    (hcont : ∀ row, I row → P (Event.continuation row.next))
    (hIrestart : ∀ row t, I row → t.x = row.depth → I { row with startSlope := slope t })
    (hIchild : ∀ row t, I row → t.x = row.depth → I { row.next with endSlope := slope t })
    (hInext : ∀ row, I row → I row.next)
    (fuel : Nat) (row : Row) (st : St) (hI : I row) :
    ∀ e ∈ (scanT junk transparency q fuel row st).2, P e :=
  scanT_inv I (fun _ l _ => ∀ e ∈ l, P e)
    (fun _ e he => by cases he)
    (fun _ l1 _ l2 _ h1 h2 e he => by
      rcases List.mem_append.1 he with h | h
      · exact h1 e h
      · exact h2 e h)
    (fun _ e he => by cases he)
    junk transparency q
    (fun _ _ row t hI ht _ => hreveal row t hI ht)
    (fun _ row t hI ht e he => by
      simp only [List.mem_cons, List.mem_singleton, List.not_mem_nil, or_false] at he
      rcases he with rfl | rfl
      · exact hslope row t hI ht
      · exact hrestart row t hI ht)
    (fun _ row t hI ht e he => by
      simp only [List.mem_cons, List.mem_singleton, List.not_mem_nil, or_false] at he
      rcases he with rfl | rfl
      · exact hslope row t hI ht
      · exact hchild row t hI ht)
    (fun _ row hI e he => by
      simp only [List.mem_singleton] at he
      subst he
      exact hcont row hI)
    hIrestart hIchild hInext fuel row st hI

/-- Every event of a traced `updateFOV` has the property `P`, under the same
conditions, if the origin write and the first row have it too. -/
theorem updateFOVOrderT_all (I : Row → Prop) (P : Event → Prop)
    (order : List Int) (fuel : Nat) (junk : Nat → Tile) (transparency : List (List Int))
    (origin : Int × Int)
    (hreveal : ∀ (i : Int) row t, I row → t.x = row.depth →
      ∀ e ∈ revealEvent { cardinal := i, origin := origin } t, P e)
    (hslope : ∀ row t, I row → t.x = row.depth → P (Event.slope t))
    (hrestart : ∀ row t, I row → t.x = row.depth →
      P (Event.restarted { row with startSlope := slope t }))
    (hchild : ∀ row t, I row → t.x = row.depth →
      P (Event.child { row.next with endSlope := slope t }))
    (hcont : ∀ row, I row → P (Event.continuation row.next))
    (hfirst : P (Event.first firstRow))
    (horigin : P (Event.origin origin.1 origin.2))
    (hIrestart : ∀ row t, I row → t.x = row.depth → I { row with startSlope := slope t })
    (hIchild : ∀ row t, I row → t.x = row.depth → I { row.next with endSlope := slope t })
    (hInext : ∀ row, I row → I row.next) (hIfirst : I firstRow) :
    ∀ e ∈ (updateFOVOrderT order fuel junk transparency origin).2, P e := by
  have hloop := quadrantLoopT_inv I (fun _ l _ => ∀ e ∈ l, P e)
    (fun _ e he => by cases he)
    (fun _ l1 _ l2 _ h1 h2 e he => by
      rcases List.mem_append.1 he with h | h
      · exact h1 e h
      · exact h2 e h)
    (fun _ e he => by cases he)
    fuel junk transparency origin
    (fun i _ _ row t hI ht _ => hreveal i row t hI ht)
    (fun _ row t hI ht e he => by
      simp only [List.mem_cons, List.mem_singleton, List.not_mem_nil, or_false] at he
      rcases he with rfl | rfl
      · exact hslope row t hI ht
      · exact hrestart row t hI ht)
    (fun _ row t hI ht e he => by
      simp only [List.mem_cons, List.mem_singleton, List.not_mem_nil, or_false] at he
      rcases he with rfl | rfl
      · exact hslope row t hI ht
      · exact hchild row t hI ht)
    (fun _ row hI e he => by
      simp only [List.mem_singleton] at he
      subst he
      exact hcont row hI)
    (fun _ e he => by
      simp only [List.mem_singleton] at he
      subst he
      exact hfirst)
    hIrestart hIchild hInext hIfirst
  intro e he
  unfold updateFOVOrderT at he
  split at he
  · cases he
  · simp only [logged, List.singleton_append, List.mem_cons] at he
    rcases he with rfl | he
    · exact horigin
    · exact hloop order _ e he

theorem slope_eq_slopeAt (t : Tile) : slope t = slopeAt t.x := rfl

theorem slopeAt_lt_one (d : Int) (h : 1 ≤ d) : slopeAt d < 1 :=
  slope_lt_one { x := d, y := 0 } h

theorem slopeAt_lt_succ (d : Int) (h : 1 ≤ d) : slopeAt d < slopeAt (d + 1) := by
  unfold slopeAt slope
  have hd : (1 : ℚ) ≤ (d : ℚ) := by exact_mod_cast h
  simp only
  rw [div_lt_div_iff₀ (by linarith) (by push_cast; linarith)]
  push_cast
  nlinarith

theorem RowInv_firstRow : RowInv firstRow := by
  refine ⟨by decide, ?_, Or.inl rfl⟩
  show (-1 : ℚ) ≤ slopeAt 1
  unfold slopeAt slope
  norm_num

theorem RowInv_restart (row : Row) (t : Tile) (h : RowInv row) (ht : t.x = row.depth) :
    RowInv { row with startSlope := slope t } := by
  obtain ⟨h1, _, h3⟩ := h
  refine ⟨h1, ?_, h3⟩
  show slope t ≤ slopeAt row.depth
  rw [slope_eq_slopeAt, ht]

theorem RowInv_next (row : Row) (h : RowInv row) : RowInv row.next := by
  obtain ⟨h1, h2, h3⟩ := h
  have hm := slopeAt_lt_succ row.depth h1
  refine ⟨by simp only [Row.next]; omega, ?_, ?_⟩
  · show row.startSlope ≤ slopeAt (row.depth + 1)
    linarith
  · show row.endSlope = 1 ∨ row.endSlope < slopeAt (row.depth + 1)
    rcases h3 with h | h
    · exact Or.inl h
    · exact Or.inr (by linarith)

theorem RowInv_child (row : Row) (t : Tile) (h : RowInv row) (ht : t.x = row.depth) :
    RowInv { row.next with endSlope := slope t } := by
  obtain ⟨h1, h2, _⟩ := h
  have hm := slopeAt_lt_succ row.depth h1
  refine ⟨by simp only [Row.next]; omega, ?_, Or.inr ?_⟩
  · show row.startSlope ≤ slopeAt (row.depth + 1)
    linarith
  · show slope t < slopeAt (row.depth + 1)
    rw [slope_eq_slopeAt, ht]
    exact hm

theorem mem_revealEvent (q : Quadrant) (t : Tile) (e : Event) (he : e ∈ revealEvent q t) :
    ∃ coords, q.transform t = .ok coords ∧ e = Event.reveal coords.1 coords.2 := by
  unfold revealEvent at he
  split at he
  · cases he
  · rename_i coords hc
    simp only [List.mem_singleton] at he
    exact ⟨coords, hc, he⟩

/-- Every event of every run, on any map and from any origin, has `EventInv`. -/
theorem updateFOVOrderT_rows (order : List Int) (fuel : Nat) (junk : Nat → Tile)
    (transparency : List (List Int)) (origin : Int × Int) :
    ∀ e ∈ (updateFOVOrderT order fuel junk transparency origin).2, EventInv e := by
  apply updateFOVOrderT_all RowInv EventInv order fuel junk transparency origin
  · intro i row t _ _ e he
    obtain ⟨c, _, rfl⟩ := mem_revealEvent _ _ _ he
    exact ⟨fun r h => (by cases h), fun r h => (by cases h), fun r h => (by cases h),
      fun r h => (by cases h), fun t h => (by cases h)⟩
  · intro row t hI ht
    refine ⟨fun r h => (by cases h), fun r h => (by cases h), fun r h => (by cases h),
      fun r h => (by cases h), ?_⟩
    intro t2 h
    cases h
    rw [ht]; exact hI.1
  · intro row t hI ht
    refine ⟨?_, fun r h => (by cases h), fun r h => (by cases h), ?_,
      fun t h => (by cases h)⟩
    · intro r h
      cases h
      exact RowInv_restart row t hI ht
    · intro r h
      cases h
      show row.endSlope = 1 ∨ row.endSlope < slope t
      rw [slope_eq_slopeAt, ht]
      exact hI.2.2
  · intro row t hI ht
    refine ⟨?_, fun r h => (by cases h), ?_, fun r h => (by cases h),
      fun t h => (by cases h)⟩
    · intro r h
      cases h
      exact RowInv_child row t hI ht
    · intro r h
      cases h
      show row.startSlope ≤ slope t
      rw [slope_eq_slopeAt, ht]
      exact hI.2.1
  · intro row hI
    refine ⟨?_, fun r h => (by cases h), fun r h => (by cases h), fun r h => (by cases h),
      fun t h => (by cases h)⟩
    intro r h
    cases h
    exact RowInv_next row hI
  · refine ⟨?_, ?_, fun r h => (by cases h), fun r h => (by cases h),
      fun t h => (by cases h)⟩
    · intro r h
      cases h
      exact RowInv_firstRow
    · intro r h
      cases h
      rfl
  · exact ⟨fun r h => (by cases h), fun r h => (by cases h), fun r h => (by cases h),
      fun r h => (by cases h), fun t h => (by cases h)⟩
  · exact RowInv_restart
  · exact RowInv_child
  · exact RowInv_next
  · exact RowInv_firstRow

/-- Where a tile of depth at least 1 lands: east of the origin in the quadrants
NORTH and SOUTH, south of it in the quadrants EAST and WEST. -/
theorem transform_beyond (q : Quadrant) (t : Tile) (coords : Int × Int)
    (hc : q.transform t = .ok coords) (ht : 1 ≤ t.x) :
    ((q.cardinal = 0 ∨ q.cardinal = 1) → q.origin.1 < coords.1) ∧
    ((q.cardinal = 2 ∨ q.cardinal = 3) → q.origin.2 < coords.2) ∧
    (q.origin.1 < coords.1 ∨ q.origin.2 < coords.2) := by
  unfold Quadrant.transform at hc
  simp only at hc
  split_ifs at hc with h0 h1 h2 h3
  · cases hc
    exact ⟨fun _ => by simp only; omega, fun h => by omega, Or.inl (by simp only; omega)⟩
  · cases hc
    exact ⟨fun _ => by simp only; omega, fun h => by omega, Or.inl (by simp only; omega)⟩
  · cases hc
    exact ⟨fun h => by omega, fun _ => by simp only; omega, Or.inr (by simp only; omega)⟩
  · cases hc
    exact ⟨fun h => by omega, fun _ => by simp only; omega, Or.inr (by simp only; omega)⟩

theorem scanT_reveals (junk : Nat → Tile) (transparency : List (List Int)) (q : Quadrant)
    (fuel : Nat) (row : Row) (st : St) (hd : 1 ≤ row.depth) :
    ∀ e ∈ (scanT junk transparency q fuel row st).2, ∀ x y, e = Event.reveal x y →
      ((q.cardinal = 0 ∨ q.cardinal = 1) → q.origin.1 < x) ∧
      ((q.cardinal = 2 ∨ q.cardinal = 3) → q.origin.2 < y) := by
  apply scanT_all (fun r => 1 ≤ r.depth)
    (fun e => ∀ x y, e = Event.reveal x y →
      ((q.cardinal = 0 ∨ q.cardinal = 1) → q.origin.1 < x) ∧
      ((q.cardinal = 2 ∨ q.cardinal = 3) → q.origin.2 < y))
    junk transparency q
  · intro row t hI ht e he x y hxy
    obtain ⟨c, hc, rfl⟩ := mem_revealEvent _ _ _ he
    cases hxy
    have := transform_beyond q t c hc (by omega)
    exact ⟨this.1, this.2.1⟩
  · intro row t _ _ x y h; cases h
  · intro row t _ _ x y h; cases h
  · intro row t _ _ x y h; cases h
  · intro row _ x y h; cases h
  · intro row t h _; exact h
  · intro row t h _; simp only [Row.next]; omega
  · intro row h; simp only [Row.next]; omega
  · exact hd

theorem updateFOVOrderT_reveals (order : List Int) (fuel : Nat) (junk : Nat → Tile)
    (transparency : List (List Int)) (origin : Int × Int) :
    ∀ e ∈ (updateFOVOrderT order fuel junk transparency origin).2, ∀ x y,
      e = Event.reveal x y → origin.1 < x ∨ origin.2 < y := by
  apply updateFOVOrderT_all (fun r => 1 ≤ r.depth)
    (fun e => ∀ x y, e = Event.reveal x y → origin.1 < x ∨ origin.2 < y)
    order fuel junk transparency origin
  · intro i row t hI ht e he x y hxy
    obtain ⟨c, hc, rfl⟩ := mem_revealEvent _ _ _ he
    cases hxy
    exact (transform_beyond _ t c hc (by omega)).2.2
  · intro row t _ _ x y h; cases h
  · intro row t _ _ x y h; cases h
  · intro row t _ _ x y h; cases h
  · intro row _ x y h; cases h
  · intro x y h; cases h
  · intro x y h; cases h
  · intro row t h _; exact h
  · intro row t h _; simp only [Row.next]; omega
  · intro row h; simp only [Row.next]; omega
  · decide

theorem setTileCalls_append (k : Nat) (l1 l2 : List Event) :
    setTileCalls k (l1 ++ l2) = setTileCalls k l1 + setTileCalls k l2 := by
  simp [setTileCalls, List.countP_append]

/-- A successful `setTile` makes its target row one longer and keeps the length
of every other row. -/
theorem setTile_rowLen (v v2 : List (List Bool)) (t : Tile) (val : Bool)
    (h : setTile v t val = .ok v2) (k : Nat) :
    rowLen v2 k = (rowLen v k).map (fun n => n + if t.y = (k : Int) then 1 else 0) := by
  unfold setTile at h
  split at h
  · rename_i hpos
    split at h
    · cases h
    · rename_i cells hrow
      split at h
      · cases h
        unfold rowLen
        by_cases hk : t.y = (k : Int)
        · have hk2 : t.y.toNat = k := by omega
          rw [hk2] at hrow
          have hlt : k < v.length := by
            by_contra hge
            rw [List.getElem?_eq_none (by omega)] at hrow
            cases hrow
          rw [hk2, List.getElem?_set_self hlt, hrow]
          simp [hk, insertAt_length]
        · have hk2 : t.y.toNat ≠ k := by omega
          rw [List.getElem?_set_ne hk2]
          cases v[k]? <;> simp [hk]
      · cases h
  · cases h

/-- The length of every row of the visibility map after a traced quadrant loop:
the length before plus the number of recorded `setTile` calls that target it. -/
theorem quadrantLoopT_rowLen (fuel : Nat) (junk : Nat → Tile) (transparency : List (List Int))
    (origin : Int × Int) (order : List Int) (st : St) (k : Nat) :
    rowLen (quadrantLoopT fuel junk transparency origin order st).1.st.vis k =
      (rowLen st.vis k).map (fun n =>
        n + setTileCalls k (quadrantLoopT fuel junk transparency origin order st).2) := by
  have key := quadrantLoopT_inv (fun _ => True)
    (fun s l s2 => ∀ k, rowLen s2.vis k = (rowLen s.vis k).map (fun n => n + setTileCalls k l))
    (fun s k => by simp [setTileCalls])
    (fun a l1 b l2 c h1 h2 k => by
      rw [h2 k, h1 k, setTileCalls_append]
      cases rowLen a.vis k <;> simp [Nat.add_assoc])
    (fun s k => by simp [setTileCalls])
    fuel junk transparency origin
    (fun i s v2 row t _ _ hrev k => by
      unfold reveal at hrev
      unfold revealEvent
      split at hrev
      · cases hrev
      · rename_i coords hc
        simp only
        rw [setTile_rowLen _ _ _ _ hrev k]
        simp only [setTileCalls, Event.setTileRow?, List.countP_cons, List.countP_nil]
        by_cases hk : coords.2 = (k : Int) <;> simp [hk])
    (fun s row t _ _ k => by simp [setTileCalls, Event.setTileRow?])
    (fun s row t _ _ k => by simp [setTileCalls, Event.setTileRow?])
    (fun s row _ k => by simp [setTileCalls, Event.setTileRow?])
    (fun s k => by simp [setTileCalls, Event.setTileRow?])
    (fun _ _ _ _ => trivial) (fun _ _ _ _ => trivial) (fun _ _ => trivial) trivial
    order st
  exact key k

theorem updateFOVOrderT_rowLen (order : List Int) (fuel : Nat) (junk : Nat → Tile)
    (transparency : List (List Int)) (origin : Int × Int) (k : Nat) :
    rowLen (updateFOVOrderT order fuel junk transparency origin).1.st.vis k =
      (rowLen (initialMap transparency) k).map (fun n =>
        n + setTileCalls k (updateFOVOrderT order fuel junk transparency origin).2) := by
  unfold updateFOVOrderT
  split
  · simp [setTileCalls]
  · rename_i vis hvis
    simp only [logged]
    rw [quadrantLoopT_rowLen, setTile_rowLen _ _ _ _ hvis k, setTileCalls_append]
    simp only [setTileCalls, Event.setTileRow?, List.countP_cons, List.countP_nil]
    cases rowLen (initialMap transparency) k with
    | none => rfl
    | some n =>
      by_cases hk : origin.2 = (k : Int) <;> simp [hk]; omega

theorem rowLen_initialMap (transparency : List (List Int)) (w h : Nat)
    (hrect : Rectangular transparency w h) (k : Nat) (hk : k < h) :
    rowLen (initialMap transparency) k = some w := by
  obtain ⟨cells, hc, hl⟩ := rectangular_row transparency w h hrect (k : Int)
    (by omega) (by omega)
  simp only [Int.toNat_ofNat] at hc
  unfold rowLen
  rw [initialMap_getElem?, hc]
  simp [hl]

/-- A probe never raises `out_of_range`: a read outside the map is the fatal
outcome, which the `catch` clause of `scan` does not handle. -/
theorem getTransparency_error (transparency : List (List Int)) (x y : Int) (e : Err)
    (h : getTransparency transparency x y = .error e) : e = .undefined := by
  unfold getTransparency at h
  split at h
  · split at h
    · cases h; rfl
    · split at h
      · split at h
        · cases h; rfl
        · cases h
      · cases h; rfl
  · cases h; rfl

/-- A probe at a position outside a rectangular map is an unchecked read
outside a vector. -/
theorem getTransparency_outside (transparency : List (List Int)) (w h : Nat)
    (hrect : Rectangular transparency w h) (x y : Int)
    (hout : x < 0 ∨ (w : Int) ≤ x ∨ y < 0 ∨ (h : Int) ≤ y) :
    getTransparency transparency x y = .error .undefined := by
  unfold getTransparency
  split
  · rename_i hy
    split
    · rfl
    · rename_i cells hcells
      have hmem : cells ∈ transparency := List.mem_iff_getElem?.2 ⟨_, hcells⟩
      have hlen := hrect.2 cells hmem
      have hylt : y.toNat < transparency.length := by
        by_contra hge
        rw [List.getElem?_eq_none (by omega)] at hcells
        cases hcells
      rw [hrect.1] at hylt
      split
      · rename_i hx
        split
        · rfl
        · rename_i v hv
          have hxlt : x.toNat < cells.length := by
            by_contra hge
            rw [List.getElem?_eq_none (by omega)] at hv
            cases hv
          omega
      · rfl
  · rfl

/-- A tile whose probe leaves the map ends the whole run: the failure is not an
`out_of_range`, so the `catch` clause passes it on. -/
theorem scanTiles_cons_out (rec : Row → St → Res) (transparency : List (List Int))
    (q : Quadrant) (tile : Tile) (rest : List Tile) (row : Row) (prevTile : Tile) (st : St)
    (hw : isWall transparency q tile = .error .undefined) :
    scanTiles rec transparency q (tile :: rest) row prevTile st =
      { status := .threw .undefined, st := st } := by
  rw [scanTiles, hw]
  rfl

/-- On a rectangular map, from an in-bounds origin in the last column or the
last row, the first probe of the first quadrant, at `(ox + 1, oy + 1)`, is
outside the map and ends the run. -/
theorem updateFOV_boundary (fuel : Nat) (junk : Nat → Tile) (transparency : List (List Int))
    (w h : Nat) (ox oy : Int) (hrect : Rectangular transparency w h)
    (hx0 : 0 ≤ ox) (hx1 : ox < w) (hy0 : 0 ≤ oy) (hy1 : oy < h)
    (hlast : ox + 1 = w ∨ oy + 1 = h) :
    (updateFOV (fuel + 1) junk transparency (ox, oy)).status = .threw .undefined ∧
    (updateFOV (fuel + 1) junk transparency (ox, oy)).st.calls = 1 := by
  obtain ⟨vis, hvis⟩ := origin_write_ok transparency w h ox oy hrect hx0 hx1 hy0 hy1
  have hw : isWall transparency { cardinal := 0, origin := (ox, oy) } ⟨1, -1⟩ =
      .error .undefined := by
    have hp := getTransparency_outside transparency w h hrect (ox + 1) (oy - -1)
      (by omega)
    simp only [isWall, Quadrant.transform, if_true, hp]
  unfold updateFOV updateFOVOrder
  simp only [hvis]
  rw [quadrantLoop, scan, firstRow_tiles, scanTiles_cons_out _ _ _ _ _ _ _ _ hw]
  exact ⟨rfl, rfl⟩

theorem updateFOV_1x1 (n : Nat) (junk : Nat → Tile) :
    updateFOV (n + 1) junk [[1]] (0, 0) =
      { status := .threw .undefined, st := { vis := [[true, false]], calls := 1 } } := by
  simp [updateFOV, updateFOVOrder, quadrantLoop, scan, firstRow_tiles, scanTiles, isWall,
    Quadrant.transform, getTransparency, handler, setTile, initialMap, insertAt]

theorem junkWallOnce_of_two_le (k : Nat) (hk : 2 ≤ k) : junkWallOnce k = ⟨0, 0⟩ := by
  unfold junkWallOnce
  rw [if_neg (by omega)]

/-- The rows `{D, 3/4, 1/2}` of the NORTH quadrant of `oneWallMap` have no tile;
from the third invocation on the stale `prevTile` is the transparent origin, so
each of them scans the next one. -/
theorem oneWallMap_narrow (n : Nat) :
    ∀ (D : Int) (st : St), 2 ≤ D → 2 ≤ st.calls →
      (scan junkWallOnce oneWallMap { cardinal := 0, origin := (0, 1) } n
        (Row.mk D (3 / 4) (1 / 2)) st).status = .outOfFuel := by
  induction n with
  | zero => intro D st _ _; rfl
  | succ n ih =>
    intro D st hD hc
    have hf : isFloor oneWallMap { cardinal := 0, origin := (0, 1) } (junkWallOnce st.calls)
        = .ok true := by
      rw [junkWallOnce_of_two_le _ hc]
      decide!
    rw [scan, narrowRow_tiles D hD, scanTiles_nil_floor _ _ _ _ _ _ hf]
    exact ih (D + 1) _ (by omega) (by simp only; omega)

/-- The row `{2, -1, 1/2}` of the NORTH quadrant of `oneWallMap`, scanned as the
second invocation, never returns: its start slope becomes 3/4 at its first tile
and its continuation is the row `{3, 3/4, 1/2}`. -/
theorem oneWallMap_row2 (n : Nat) :
    (scan junkWallOnce oneWallMap { cardinal := 0, origin := (0, 1) } n
      (Row.mk 2 (-1) (1 / 2))
      { vis := [[false, false, false], [true, false, false, false],
                [false, true, false, false], [false, false, false]], calls := 1 }).status
      = .outOfFuel := by
  match n with
  | 0 => rfl
  | n + 1 =>
    rw [scan]
    have ht : (Row.mk 2 (-1) (1 / 2)).tiles = [⟨2, -2⟩, ⟨2, -1⟩, ⟨2, 0⟩, ⟨2, 1⟩] := by decide!
    have hj : junkWallOnce 1 = ⟨1, -1⟩ := rfl
    rw [ht]
    simp only [hj]
    rw [scanTiles_cons_wallFloor _ _ _ _ _ _ _ _
      [[false, false, false], [true, false, false, false],
        [false, true, false, false], [false, false, false]]
      (by decide!) (by decide!) (by decide!)]
    rw [scanTiles_cons_same _ _ _ _ _ _ _ _ false false
      [[false, false, false], [true, false, false, false],
        [false, true, false, false], [false, false, false]]
      (by decide!) (by decide!) rfl (by decide!)]
    rw [scanTiles_cons_same _ _ _ _ _ _ _ _ false false
      [[false, false, false], [true, false, false, false],
        [false, true, false, false], [false, false, false]]
      (by decide!) (by decide!) rfl (by decide!)]
    rw [scanTiles_cons_same _ _ _ _ _ _ _ _ false false
      [[false, false, false], [true, false, false, false],
        [false, true, false, false], [false, false, false]]
      (by decide!) (by decide!) rfl (by decide!)]
    rw [scanTiles_nil_floor _ _ _ _ _ _ (by decide!)]
    have hr3 : ({ (Row.mk 2 (-1) (1 / 2)) with startSlope := slope ⟨2, -2⟩ } : Row).next
        = Row.mk 3 (3 / 4) (1 / 2) := by decide!
    rw [hr3]
    exact oneWallMap_narrow _ _ _ (by decide) (by decide)

/-- The NORTH quadrant of `oneWallMap` seen from (0,1) never returns. -/
theorem oneWallMap_north (n : Nat) :
    (scan junkWallOnce oneWallMap { cardinal := 0, origin := (0, 1) } n firstRow
      { vis := [[false, false, false], [true, false, false, false],
                [false, false, false], [false, false, false]], calls := 0 }).status
      = .outOfFuel := by
  match n with
  | 0 => rfl
  | n + 1 =>
    rw [scan, firstRow_tiles]
    have hj : junkWallOnce 0 = ⟨0, 0⟩ := rfl
    simp only [hj]
    rw [scanTiles_cons_floorWall _ _ _ _ _ _ _ _
      [[false, false, false], [true, false, false, false],
        [false, true, false, false], [false, false, false]]
      (by decide!) (by decide!) (by decide!)]
    have hr2 : ({ firstRow.next with endSlope := slope ⟨1, -1⟩ } : Row)
        = Row.mk 2 (-1) (1 / 2) := by decide!
    rw [hr2]
    have h2 := oneWallMap_row2 n
    simp only at h2 ⊢
    rw [h2]
    simp only
    exact h2

theorem oneWallMap_diverges (n : Nat) :
    (updateFOV n junkWallOnce oneWallMap (0, 1)).status = .outOfFuel := by
  have h0 : setTile (initialMap oneWallMap) { x := 0, y := 1 } true =
      .ok [[false, false, false], [true, false, false, false],
        [false, false, false], [false, false, false]] := by decide!
  unfold updateFOV updateFOVOrder
  simp only [h0]
  rw [quadrantLoop]
  have h := oneWallMap_north n
  simp only at h ⊢
  rw [h]
  simp only
  exact h

/-- No completed `reveal` leaves the visibility map as it was: the row it
targets is one entry longer. -/
theorem reveal_ne_self (q : Quadrant) (v v2 : List (List Bool)) (t : Tile)
    (h : reveal q v t = .ok v2) : v2 ≠ v := by
  unfold reveal at h
  split at h
  · cases h
  · rename_i coords _
    intro heq
    have hk := setTile_rowLen _ _ _ _ h coords.2.toNat
    rw [heq] at hk
    have hrow : 0 ≤ coords.2 ∧ ∃ n, rowLen v coords.2.toNat = some n := by
      unfold setTile at h
      split at h
      · rename_i hpos
        split at h
        · cases h
        · rename_i cells hcells
          refine ⟨hpos.1, cells.length, ?_⟩
          unfold rowLen
          simp only at hcells
          rw [hcells]
          rfl
      · cases h
    obtain ⟨hy, n, hn⟩ := hrow
    rw [hn] at hk
    have hc : (coords.2.toNat : Int) = coords.2 := Int.toNat_of_nonneg hy
    simp only [Option.map_some', Option.some.injEq, hc, if_true] at hk
    omega

theorem isWall_error_ne (transparency : List (List Int)) (q : Quadrant) (t : Tile) (e : Err)
    (h : isWall transparency q t = .error e) : e ≠ .out_of_range := by
  unfold isWall at h
  split at h
  · rename_i e2 he
    cases h
    unfold Quadrant.transform at he
    simp only at he
    split_ifs at he
    cases he
    intro hc
    cases hc
  · split at h
    · rename_i e2 he
      cases h
      rw [getTransparency_error _ _ _ _ he]
      intro hc
      cases hc
    · cases h

theorem reveal_error_ne (q : Quadrant) (v : List (List Bool)) (t : Tile) (e : Err)
    (h : reveal q v t = .error e) : e ≠ .out_of_range := by
  unfold reveal at h
  split at h
  · rename_i e2 he
    cases h
    unfold Quadrant.transform at he
    simp only at he
    split_ifs at he
    cases he
    intro hc
    cases hc
  · unfold setTile at h
    split at h
    · split at h
      · cases h
        intro hc
        cases hc
      · split at h
        · cases h
        · cases h
          intro hc
          cases hc
    · cases h
      intro hc
      cases hc

theorem handler_ne_done (e : Err) (st : St) (he : e ≠ .out_of_range) :
    (handler e st).status ≠ .done := by
  unfold handler
  rw [if_neg he]
  intro hc
  cases hc

/-- On a map without an opaque tile no probe finds a wall. -/
theorem isWall_of_noWall (transparency : List (List Int))
    (hnw : ∀ cells ∈ transparency, ∀ v ∈ cells, v ≠ 0) (q : Quadrant) (t : Tile) (w : Bool)
    (h : isWall transparency q t = .ok w) : w = false := by
  unfold isWall at h
  split at h
  · cases h
  · rename_i coords _
    split at h
    · cases h
    · rename_i v hv
      cases h
      unfold getTransparency at hv
      split at hv
      · split at hv
        · cases hv
        · rename_i cells hcells
          split at hv
          · split at hv
            · cases hv
            · rename_i v2 hv2
              cases hv
              have h1 : cells ∈ transparency := List.mem_iff_getElem?.2 ⟨_, hcells⟩
              have h2 : v ∈ cells := List.mem_iff_getElem?.2 ⟨_, hv2⟩
              simpa using hnw cells h1 v h2
          · cases hv
      · cases hv

/-- On a map without an opaque tile a row scan never returns, if the recursive
calls it makes never return: every tile is a floor, so the scan goes on until a
probe leaves the map or until it calls `scan` for the next row. -/
theorem scanTiles_noWall (rec : Row → St → Res) (transparency : List (List Int))
    (hnw : ∀ cells ∈ transparency, ∀ v ∈ cells, v ≠ 0) (q : Quadrant)
    (hrec : ∀ row st, (rec row st).status ≠ .done) :
    ∀ (tiles : List Tile) (row : Row) (prevTile : Tile) (st : St),
      (scanTiles rec transparency q tiles row prevTile st).status ≠ .done := by
  intro tiles
  induction tiles with
  | nil =>
    intro row prevTile st
    rw [scanTiles]
    cases hf : isFloor transparency q prevTile with
    | error e => intro hc; cases hc
    | ok b =>
      cases hw : isWall transparency q prevTile with
      | error e2 =>
        rw [isFloor_error_of_isWall _ _ _ _ hw] at hf
        cases hf
      | ok w =>
        have := isWall_of_noWall transparency hnw q prevTile w hw
        subst this
        rw [isFloor_of_isWall _ _ _ _ hw] at hf
        cases hf
        exact hrec _ _
  | cons tile rest ih =>
    intro row prevTile st
    rw [scanTiles]
    cases hw : isWall transparency q tile with
    | error e => exact handler_ne_done _ _ (isWall_error_ne _ _ _ _ hw)
    | ok w =>
      have hwf := isWall_of_noWall transparency hnw q tile w hw
      subst hwf
      simp only [Bool.false_or]
      cases hrev : (if isSymmetric row tile then reveal q st.vis tile else .ok st.vis) with
      | error e =>
        simp only
        apply handler_ne_done
        split at hrev
        · exact reveal_error_ne _ _ _ _ hrev
        · cases hrev
      | ok vis1 =>
        simp only
        cases hpw : isWall transparency q prevTile with
        | error e => exact handler_ne_done _ _ (isWall_error_ne _ _ _ _ hpw)
        | ok pw =>
          have hpf := isWall_of_noWall transparency hnw q prevTile pw hpw
          subst hpf
          simp only [isFloor_of_isWall _ _ _ _ hpw, Bool.not_false, if_true, if_false,
            Bool.false_eq_true]
          exact ih _ _ _

/-- On a map without an opaque tile `scan` never returns. -/
theorem scan_noWall (junk : Nat → Tile) (transparency : List (List Int))
    (hnw : ∀ cells ∈ transparency, ∀ v ∈ cells, v ≠ 0) (q : Quadrant) :
    ∀ (fuel : Nat) (row : Row) (st : St),
      (scan junk transparency q fuel row st).status ≠ .done := by
  intro fuel
  induction fuel with
  | zero => intro row st hc; cases hc
  | succ n ih =>
    intro row st
    rw [scan]
    exact scanTiles_noWall _ transparency hnw q ih _ _ _ _

/-- On a map without an opaque tile `updateFOV` never returns its grid, whatever
the origin and the stale `prevTile`: the run ends at a read outside the map, or
it does not end. -/
theorem updateFOV_noWall (fuel : Nat) (junk : Nat → Tile) (transparency : List (List Int))
    (hnw : ∀ cells ∈ transparency, ∀ v ∈ cells, v ≠ 0) (origin : Int × Int) :
    (updateFOV fuel junk transparency origin).status ≠ .done := by
  unfold updateFOV updateFOVOrder
  split
  · intro hc; cases hc
  · rw [quadrantLoop]
    have h := scan_noWall junk transparency hnw { cardinal := 0, origin := origin } fuel
      firstRow
    split
    · rename_i hdone
      exact absurd hdone (h _)
    · exact h _

/-! ## The claims -/

/-- C1 (what the code does instead): for every rectangular `w` x `h` map and
every in-bounds origin the visibility map of `updateFOV` keeps `h` rows, but
its row `oy` has at least `w + 1` entries, because `setTile` inserts an element
instead of overwriting one; the output never has the dimensions of the input. -/
theorem updateFOV_origin_row_longer (fuel : Nat) (junk : Nat → Tile)
    (transparency : List (List Int)) (w h : Nat) (ox oy : Int)
    (hrect : Rectangular transparency w h)
    (hx0 : 0 ≤ ox) (hx1 : ox < w) (hy0 : 0 ≤ oy) (hy1 : oy < h) :
    (updateFOV fuel junk transparency (ox, oy)).st.vis.length = h ∧
    ∃ cells, (updateFOV fuel junk transparency (ox, oy)).st.vis[oy.toNat]? = some cells ∧
      w + 1 ≤ cells.length := by
  obtain ⟨cells, hc, hl⟩ := rectangular_row transparency w h hrect oy hy0 hy1
  have hrow : (initialMap transparency)[oy.toNat]? = some (cells.map (fun _ => false)) := by
    rw [initialMap_getElem?]; simp [hc]
  have hlen : ox.toNat ≤ (cells.map (fun _ => false)).length := by
    simp only [List.length_map, hl]; omega
  have hvis := setTile_ok_of_le (initialMap transparency) _ { x := ox, y := oy } true hy0 hx0
    hrow hlen
  have hlt : oy.toNat < (initialMap transparency).length := by
    simp only [initialMap, List.length_map, hrect.1]; omega
  have hg := quadrantLoop_grow fuel junk transparency (ox, oy) [0, 1, 2, 3]
    { vis := (initialMap transparency).set oy.toNat
        (insertAt ox.toNat true (cells.map (fun _ => false))), calls := 0 }
  unfold updateFOV updateFOVOrder
  simp only [hvis]
  constructor
  · rw [hg.1]; simp [initialMap, hrect.1]
  · obtain ⟨c2, h2, l2⟩ := hg.2 oy.toNat _ (List.getElem?_set_self hlt)
    refine ⟨c2, h2, ?_⟩
    rw [insertAt_length] at l2
    simp only [List.length_map, hl] at l2
    exact l2

/-- C1 (witness): on the 3x3 map `cornerMap` seen from (1,1) the run returns a
grid of three rows with 5, 6 and 11 entries; on the 1x1 map of scenario D the
single row has the two entries `[true, false]` when the run stops at its first
probe, which is outside the map. -/
theorem updateFOV_origin_row_longer_witness :
    Rectangular cornerMap 3 3 ∧
    updateFOV 9 junkZero cornerMap (1, 1) =
      { status := .done,
        st := { vis := [[false, false, true, true, false],
                        [false, true, true, true, false, false],
                        [true, true, true, true, true, true, false, false, true, true, false]],
                calls := 4 } } ∧
    updateFOV 1 junkZero [[1]] (0, 0) =
      { status := .threw .undefined, st := { vis := [[true, false]], calls := 1 } } ∧
    ((updateFOV 9 junkZero cornerMap (1, 1)).st.vis.length = 3 ∧
      ∃ cells, (updateFOV 9 junkZero cornerMap (1, 1)).st.vis[(1 : Int).toNat]?
        = some cells ∧ 3 + 1 ≤ cells.length) :=
  ⟨by decide, by decide!, updateFOV_1x1 0 _,
    updateFOV_origin_row_longer 9 junkZero cornerMap 3 3 1 1
      (by decide) (by decide) (by decide) (by decide) (by decide)⟩

/-- C2: for every rectangular map and every in-bounds origin `(ox, oy)` the
visibility map of `updateFOV` holds `true` at `[oy][ox]`, whether the origin
tile is transparent or opaque, whatever the rest of the map and the
uninitialised `prevTile` hold, and at every stage of the run (so also in the
grid that is returned): every later insert into row `oy` lands behind index
`ox`. -/
theorem updateFOV_origin_visible (fuel : Nat) (junk : Nat → Tile)
    (transparency : List (List Int)) (w h : Nat) (ox oy : Int)
    (hrect : Rectangular transparency w h)
    (hx0 : 0 ≤ ox) (hx1 : ox < w) (hy0 : 0 ≤ oy) (hy1 : oy < h) :
    cellAt (updateFOV fuel junk transparency (ox, oy)).st.vis ox oy = some true := by
  obtain ⟨vis, hvis⟩ := origin_write_ok transparency w h ox oy hrect hx0 hx1 hy0 hy1
  unfold updateFOV updateFOVOrder
  simp only [hvis]
  rw [quadrantLoop_frame fuel junk transparency (ox, oy) [0, 1, 2, 3] { vis := vis, calls := 0 }
    ox oy (le_refl _) (le_refl _)]
  exact setTile_cellAt_self _ _ _ _ hvis

/-- C2 (witness): the 3x3 map `cornerMap` seen from its opaque tile (1,1), where
the run returns. -/
theorem updateFOV_origin_visible_witness :
    Rectangular cornerMap 3 3 ∧
    (updateFOV 9 junkZero cornerMap (1, 1)).status = .done ∧
    cellAt (updateFOV 9 junkZero cornerMap (1, 1)).st.vis 1 1
      = some true :=
  ⟨by decide, by decide!,
    updateFOV_origin_visible 9 junkZero cornerMap 3 3 1 1
      (by decide) (by decide) (by decide) (by decide) (by decide)⟩

/-- C3 (failing input): on the all-transparent 5x5 map seen from (2,2) the cells
(0,0), (1,2) and (2,1) are `false` in every run of `updateFOV`. No run on a map
without an opaque tile returns its grid, whatever the origin and the stale
`prevTile`; with a stale `prevTile` of `{0, 0}` the runs on the 5x5 map from
(2,2) and on the 3x3 map from the corner (0,0) read outside the map, with the
ragged grids below, not all-true grids of the input's shape. -/
theorem allFloor_not_all_visible :
    (∀ fuel junk, cellAt (updateFOV fuel junk allFloor5 (2, 2)).st.vis 0 0 = some false ∧
      cellAt (updateFOV fuel junk allFloor5 (2, 2)).st.vis 1 2 = some false ∧
      cellAt (updateFOV fuel junk allFloor5 (2, 2)).st.vis 2 1 = some false) ∧
    (∀ (fuel : Nat) (junk : Nat → Tile) (transparency : List (List Int)) (origin : Int × Int),
      (∀ cells ∈ transparency, ∀ v ∈ cells, v ≠ 0) →
      (updateFOV fuel junk transparency origin).status ≠ .done) ∧
    updateFOV 9 junkZero allFloor5 (2, 2) =
      { status := .threw .undefined,
        st := { vis := [[false, false, false, false, true, false],
                        [false, false, false, true, true, false, false],
                        [false, false, true, true, true, false, false, false],
                        [false, false, false, true, true, false, false],
                        [false, false, false, false, true, false]],
                calls := 3 } } ∧
    updateFOV 9 junkZero allFloor3 (0, 0) =
      { status := .threw .undefined,
        st := { vis := [[true, true, false, false, false],
                        [false, true, false, false],
                        [false, false, false]],
                calls := 1 } } := by
  refine ⟨fun fuel junk => ⟨?_, ?_, ?_⟩,
    fun fuel junk transparency origin hnw => updateFOV_noWall fuel junk transparency hnw origin,
    by decide!, by decide!⟩
  · exact updateFOV_before_origin fuel junk allFloor5 5 5 2 2 (by decide) (by decide)
      (by decide) 0 0 (by decide) (by decide) (by decide) (by decide) (by decide)
  · exact updateFOV_before_origin fuel junk allFloor5 5 5 2 2 (by decide) (by decide)
      (by decide) 1 2 (by decide) (by decide) (by decide) (by decide) (by decide)
  · exact updateFOV_before_origin fuel junk allFloor5 5 5 2 2 (by decide) (by decide)
      (by decide) 2 1 (by decide) (by decide) (by decide) (by decide) (by decide)

/-- C4 (failing input): on the 5x5 map whose only opaque tile is (2,1), seen from
(2,2), every run of `updateFOV` leaves the wall `result(2,1)` and the western
neighbour `result(1,2)` of the origin `false`, where the claim has them `true`;
the run with a stale `prevTile` of `{0, 0}` does not return, it reads outside
the map in the third row of its first quadrant. -/
theorem wallNorth_shadow_wrong :
    (∀ fuel junk, cellAt (updateFOV fuel junk wallNorthMap (2, 2)).st.vis 2 1 = some false ∧
      cellAt (updateFOV fuel junk wallNorthMap (2, 2)).st.vis 1 2 = some false) ∧
    (updateFOV 9 junkZero wallNorthMap (2, 2)).status = .threw .undefined := by
  refine ⟨fun fuel junk => ⟨?_, ?_⟩, by decide!⟩
  · exact updateFOV_before_origin fuel junk wallNorthMap 5 5 2 2 (by decide) (by decide)
      (by decide) 2 1 (by decide) (by decide) (by decide) (by decide) (by decide)
  · exact updateFOV_before_origin fuel junk wallNorthMap 5 5 2 2 (by decide) (by decide)
      (by decide) 1 2 (by decide) (by decide) (by decide) (by decide) (by decide)

/-- C5 (failing input): an out-of-bounds probe is not resolved inside the
scanner. `getTransparency` reads `transparency[y][x]` unchecked, so a probe
outside the map never raises the `out_of_range` that the `catch` clause of
`scan` handles; it is an out-of-bounds read, which ends the run. On every
rectangular map, from every in-bounds origin in the last column or the last
row, and whatever the stale `prevTile` holds, the first probe of the first
quadrant, at `(ox + 1, oy + 1)`, is such a read: the run does not return and no
further quadrant is started. So it is on the 1x1 map of scenario D, and on the
all-transparent 3x3 map seen from the corner (0,0) (scenario C), where the third
probe, at (1,-1), is outside the map. On a map without an opaque tile no run
returns, whatever the origin and the stale `prevTile`. -/
theorem out_of_map_probe_not_caught :
    (∀ (transparency : List (List Int)) (x y : Int),
      getTransparency transparency x y ≠ .error .out_of_range) ∧
    (∀ (fuel : Nat) (junk : Nat → Tile) (transparency : List (List Int)) (w h : Nat)
        (ox oy : Int), Rectangular transparency w h → 0 ≤ ox → ox < w → 0 ≤ oy → oy < h →
      (ox + 1 = w ∨ oy + 1 = h) →
      (updateFOV (fuel + 1) junk transparency (ox, oy)).status = .threw .undefined ∧
      (updateFOV (fuel + 1) junk transparency (ox, oy)).st.calls = 1) ∧
    (∀ (fuel : Nat) (junk : Nat → Tile) (transparency : List (List Int)) (origin : Int × Int),
      (∀ cells ∈ transparency, ∀ v ∈ cells, v ≠ 0) →
      (updateFOV fuel junk transparency origin).status ≠ .done) ∧
    (∀ (fuel : Nat) (junk : Nat → Tile),
      updateFOV (fuel + 1) junk [[1]] (0, 0) =
        { status := .threw .undefined, st := { vis := [[true, false]], calls := 1 } }) ∧
    Rectangular allFloor3 3 3 ∧
    (updateFOVT 9 junkZero allFloor3 (0, 0)).1.status = .threw .undefined ∧
    (updateFOVT 9 junkZero allFloor3 (0, 0)).2 =
      [Event.origin 0 0, Event.first firstRow, Event.reveal 1 1, Event.reveal 1 0] ∧
    isWall allFloor3 (Quadrant.mk 0 (0, 0)) ⟨1, 1⟩ = .error .undefined := by
  refine ⟨fun transparency x y h => ?_, ?_,
    fun fuel junk transparency origin hnw => updateFOV_noWall fuel junk transparency hnw origin,
    updateFOV_1x1, by decide, by decide!, by decide!,
    by decide!⟩
  · have := getTransparency_error transparency x y _ h
    cases this
  · intro fuel junk transparency w h ox oy hrect hx0 hx1 hy0 hy1 hlast
    exact updateFOV_boundary fuel junk transparency w h ox oy hrect hx0 hx1 hy0 hy1 hlast

/-- C6 (failing input): `updateFOV` need not terminate. On the 3x4 map
`oneWallMap` seen from (0,1), with a stale `prevTile` that is the transparent
origin `{0, 0}` in every invocation of `scan` but the second, where it is the
opaque tile `{1, -1}`, no probe ever leaves the map: the child row `{2, -1, 1/2}`
gets the start slope 3/4 at its first tile, its continuation `{3, 3/4, 1/2}` has
an empty column range (2..1) and makes no probe, the stale `prevTile` is a floor,
and the scan recurses into the next, equally empty row for ever: no amount of
fuel is enough. -/
theorem scan_recursion_unbounded :
    Rectangular oneWallMap 3 4 ∧
    (∀ fuel, (updateFOV fuel junkWallOnce oneWallMap (0, 1)).status = .outOfFuel) ∧
    (updateFOVT 6 junkWallOnce oneWallMap (0, 1)).2 =
      [Event.origin 0 1, Event.first firstRow, Event.reveal 1 2,
        Event.slope ⟨1, -1⟩, Event.child (Row.mk 2 (-1) (1 / 2)),
        Event.slope ⟨2, -2⟩, Event.restarted (Row.mk 2 (3 / 4) (1 / 2)),
        Event.continuation (Row.mk 3 (3 / 4) (1 / 2)),
        Event.continuation (Row.mk 4 (3 / 4) (1 / 2)),
        Event.continuation (Row.mk 5 (3 / 4) (1 / 2)),
        Event.continuation (Row.mk 6 (3 / 4) (1 / 2)),
        Event.continuation (Row.mk 7 (3 / 4) (1 / 2))] :=
  ⟨by decide, oneWallMap_diverges, by decide!⟩

/-- C7 (failing input): the result of `updateFOV` depends on the value the
uninitialised `prevTile` holds. On the all-transparent 3x3 map seen from (0,0)
the stale value `{0, 0}` and the stale value `{-100, -100}` leave two different
grids (neither run returns: both read outside the map). On the 4x4 map
`alcoveMap` seen from (1,1) both runs return, with two different grids: the one
with the stale value `{0, 0}` throughout, and the one whose first invocation of
`scan` finds the stale value `{1, -1}`. -/
theorem updateFOV_depends_on_junk :
    updateFOV 9 junkZero allFloor3 (0, 0) =
      { status := .threw .undefined,
        st := { vis := [[true, true, false, false, false],
                        [false, true, false, false],
                        [false, false, false]],
                calls := 1 } } ∧
    updateFOV 9 junkFar allFloor3 (0, 0) =
      { status := .threw .undefined,
        st := { vis := [[true, false, false, false],
                        [false, true, false, false],
                        [false, false, false]],
                calls := 1 } } ∧
    (updateFOV 9 junkZero allFloor3 (0, 0)).st.vis ≠
      (updateFOV 9 junkFar allFloor3 (0, 0)).st.vis ∧
    updateFOV 9 junkZero alcoveMap (1, 1) =
      { status := .done,
        st := { vis := [[false, false, true, true, false, false],
                        [false, true, true, true, false, false, false],
                        [true, true, true, true, true, true, false, false, true, true, true,
                          false, false],
                        [true, false, false, true, true, false, true, false]],
                calls := 9 } } ∧
    updateFOV 9 junkFloorOnce alcoveMap (1, 1) =
      { status := .done,
        st := { vis := [[false, false, true, true, false, false],
                        [false, true, true, true, false, false, false],
                        [true, true, true, true, true, true, false, false, true, true, true,
                          true, false, false],
                        [true, false, false, true, true, false, true, true, false]],
                calls := 9 } } ∧
    (updateFOV 9 junkZero alcoveMap (1, 1)).st.vis ≠
      (updateFOV 9 junkFloorOnce alcoveMap (1, 1)).st.vis := by
  refine ⟨by decide!, by decide!, by decide!, by decide!, by decide!, by decide!⟩

/-- C8 (failing input): reveals are neither idempotent nor commuting, and the
order of the quadrants matters. On the 3x3 map `cornerMap` seen from (1,1), with
a stale `prevTile` of `{0, 0}`, no probe leaves the map and the run returns; it
reveals (2,2) four times, and row 2 comes back with 3 + 8 entries. No completed
`reveal` leaves the map unchanged, so revealing a tile a second time changes the
grid again; revealing (0,2) then (2,2) in the state after the first two
quadrants gives another grid than revealing (2,2) then (0,2); and the same loop
run over the quadrants in the order 0,1,3,2 returns a different row 2. -/
theorem quadrant_order_matters :
    Rectangular cornerMap 3 3 ∧
    updateFOVT 9 junkZero cornerMap (1, 1) =
      ({ status := .done,
         st := { vis := [[false, false, true, true, false],
                         [false, true, true, true, false, false],
                         [true, true, true, true, true, true, false, false, true, true, false]],
                 calls := 4 } },
       [Event.origin 1 1,
        Event.first firstRow, Event.reveal 2 2, Event.reveal 2 1, Event.reveal 2 0,
        Event.first firstRow, Event.reveal 2 0, Event.reveal 2 1, Event.reveal 2 2,
        Event.first firstRow, Event.reveal 0 2, Event.reveal 1 2, Event.reveal 2 2,
        Event.first firstRow, Event.reveal 2 2, Event.reveal 1 2, Event.reveal 0 2]) ∧
    (∀ (q : Quadrant) (v v1 : List (List Bool)) (t : Tile),
      reveal q v t = .ok v1 → reveal q v1 t ≠ .ok v1) ∧
    (updateFOVOrder [0, 1] 9 junkZero cornerMap (1, 1)).st.vis =
      [[false, false, true, true, false], [false, true, true, true, false, false],
        [false, false, true, true, false]] ∧
    (reveal (Quadrant.mk 2 (1, 1)) [[false, false, true, true, false],
        [false, true, true, true, false, false], [false, false, true, true, false]] ⟨1, -1⟩
      >>= fun v => reveal (Quadrant.mk 3 (1, 1)) v ⟨1, -1⟩) =
      .ok [[false, false, true, true, false], [false, true, true, true, false, false],
        [true, false, true, false, true, true, false]] ∧
    (reveal (Quadrant.mk 3 (1, 1)) [[false, false, true, true, false],
        [false, true, true, true, false, false], [false, false, true, true, false]] ⟨1, -1⟩
      >>= fun v => reveal (Quadrant.mk 2 (1, 1)) v ⟨1, -1⟩) =
      .ok [[false, false, true, true, false], [false, true, true, true, false, false],
        [true, false, false, true, true, true, false]] ∧
    updateFOVOrder [0, 1, 3, 2] 9 junkZero cornerMap (1, 1) =
      { status := .done,
        st := { vis := [[false, false, true, true, false],
                        [false, true, true, true, false, false],
                        [true, true, true, true, false, true, false, true, true, true, false]],
                calls := 4 } } ∧
    (updateFOVOrder [0, 1, 3, 2] 9 junkZero cornerMap (1, 1)).st.vis ≠
      (updateFOV 9 junkZero cornerMap (1, 1)).st.vis := by
  refine ⟨by decide, by decide!, fun q v v1 t h h1 => ?_, by decide!, by decide!, by decide!,
    by decide!, by decide!⟩
  exact reveal_ne_self q v1 v1 t h1 rfl

/-- C9: for every origin `(ox, oy)` and tile with `col = tile.x` and
`depth = tile.y`, `Quadrant::transform` returns `(ox + col, oy - depth)` for
NORTH, `(ox + col, oy + depth)` for SOUTH, `(ox + depth, oy + col)` for EAST and
`(ox - depth, oy + col)` for WEST; it fails, with `invalid_argument`, if and only
if the direction is none of the four; and `updateFOV` builds its quadrants from
the directions 0, 1, 2, 3 only. -/
theorem transform_spec (ox oy : Int) (t : Tile) (c : Int) :
    (Quadrant.mk 0 (ox, oy)).transform t = .ok (ox + t.x, oy - t.y) ∧
    (Quadrant.mk 1 (ox, oy)).transform t = .ok (ox + t.x, oy + t.y) ∧
    (Quadrant.mk 2 (ox, oy)).transform t = .ok (ox + t.y, oy + t.x) ∧
    (Quadrant.mk 3 (ox, oy)).transform t = .ok (ox - t.y, oy + t.x) ∧
    ((Quadrant.mk c (ox, oy)).transform t = .error .invalid_argument ↔
      (c ≠ 0 ∧ c ≠ 1 ∧ c ≠ 2 ∧ c ≠ 3)) ∧
    ((∃ e, (Quadrant.mk c (ox, oy)).transform t = .error e) ↔
      (c ≠ 0 ∧ c ≠ 1 ∧ c ≠ 2 ∧ c ≠ 3)) ∧
    (∀ fuel junk transparency origin,
      updateFOV fuel junk transparency origin =
        updateFOVOrder [0, 1, 2, 3] fuel junk transparency origin) ∧
    (∀ i ∈ [(0 : Int), 1, 2, 3], ∃ p, (Quadrant.mk i (ox, oy)).transform t = .ok p) := by
  refine ⟨rfl, rfl, rfl, rfl, ?_, ?_, fun _ _ _ _ => rfl, fun i hi =>
    transform_ok_of_valid _ (by
      simp only [List.mem_cons, List.mem_singleton, List.not_mem_nil, or_false] at hi
      exact hi) t⟩
  · unfold Quadrant.transform
    simp only
    split_ifs <;> simp_all
  · unfold Quadrant.transform
    simp only
    split_ifs <;> simp_all

/-- C10: for every row (depth `d`, slopes `s`, `e` as exact rationals)
`Row::tiles` returns the tiles of the consecutive columns `minCol, ..., maxCol`
in strictly ascending order, where `minCol = floor(d*s + 1/2)` and
`maxCol = ceil(d*e - 1/2)`: the list has `max(0, maxCol - minCol + 1)`
elements, is empty exactly when `minCol > maxCol`, its `i`-th element carries
the depth `d` and the column `minCol + i` (the depth in the field `x`, the
column in the field `y`), and being a function of the row it is the same list
at every call. The two roundings agree except at the half-integers `k + 1/2`,
where the lower bound rounds to `k + 1` and the upper bound to `k`. -/
theorem Row_tiles_spec (r : Row) :
    r.minCol = ⌊(r.depth : ℚ) * r.startSlope + 1 / 2⌋ ∧
    r.maxCol = ⌈(r.depth : ℚ) * r.endSlope - 1 / 2⌉ ∧
    (r.tiles.length : Int) = max 0 (r.maxCol - r.minCol + 1) ∧
    (r.tiles = [] ↔ r.minCol > r.maxCol) ∧
    (∀ i : Nat, i < r.tiles.length →
      r.tiles.get? i = some { x := r.depth, y := r.minCol + (i : Int) }) ∧
    r.tiles.Pairwise (fun a b => a.y < b.y) ∧
    (∀ z : ℚ, roundTiesUp z = roundTiesDown z ↔ ∀ k : ℤ, z ≠ k + 1 / 2) ∧
    (∀ k : ℤ, roundTiesUp (k + 1 / 2) = k + 1 ∧ roundTiesDown (k + 1 / 2) = k) := by
  refine ⟨rfl, rfl, ?_, ?_, tiles_get? r, tiles_pairwise r,
    roundTiesUp_eq_roundTiesDown_iff, roundTies_half⟩
  · rw [tiles_length]; omega
  · rw [← List.length_eq_zero, tiles_length]; omega

end fov

namespace grid

/-- C11: for a grid of `h` rows of `w` cells, `extractAttributes(f)` returns `h`
rows of `w` entries with `f(getTile(x, y))` at `[y][x]`; if each of the first
`h` rows of `a` has at least `w` entries, `fillAttributes(a, s)` succeeds,
keeps the shape and replaces each cell `(x, y)` by `s(old cell, a[y][x])`; if
one of these rows is missing or has fewer than `w` entries it fails with
`out_of_range`; and `fillAttributes(extractAttributes(f), s)` leaves the grid
unchanged whenever `s(t, f(t)) = t` for every `t`. -/
theorem fillAttributes_extractAttributes_spec {T U : Type} (g : Grid T) (w h : Nat)
    (f : T → U) (s : T → U → T) (a : List (List U)) (hwf : g.WellFormed w h) :
    ((g.extractAttributes f).length = h ∧
      (∀ cells ∈ g.extractAttributes f, cells.length = w) ∧
      ∀ (x y : Nat) (t : T), g.getTile x y = .ok t →
        at2 (g.extractAttributes f) y x = .ok (f t)) ∧
    ((∀ y, y < h → w ≤ ((a[y]?).getD []).length) →
      (g.fillAttributes a s).1 = none ∧ (g.fillAttributes a s).2.WellFormed w h ∧
      ∀ (x y : Nat) (t : T) (u : U), g.getTile x y = .ok t → at2 a y x = .ok u →
        (g.fillAttributes a s).2.getTile x y = .ok (s t u)) ∧
    ((∃ y, y < h ∧ ((a[y]?).getD []).length < w) →
      (g.fillAttributes a s).1 = some .out_of_range) ∧
    ((∀ t, s t (f t) = t) → g.fillAttributes (g.extractAttributes f) s = (none, g)) := by
  obtain ⟨hw, hh, hlen, hrows⟩ := hwf
  have hspec := fillRowsFrom_spec a s g.data [] g rfl
  have hcov := coveredFrom_iff (T := T) a w g.data 0 hrows
  simp only [List.length_nil, Nat.zero_add, hlen] at hspec hcov
  refine ⟨⟨?_, ?_, ?_⟩, ?_, ?_, ?_⟩
  · simp [Grid.extractAttributes, hlen]
  · intro cells hc
    simp only [Grid.extractAttributes, List.mem_map] at hc
    obtain ⟨c0, hc0, rfl⟩ := hc
    simp [hrows c0 hc0]
  · intro x y t ht
    unfold Grid.getTile at ht
    simp only [Int.toNat_ofNat] at ht
    split at ht
    · split at ht
      · cases ht
      · rename_i cells hcells
        split at ht
        · cases ht
        · rename_i t2 ht2
          cases ht
          simp [at2_eq, Grid.extractAttributes, hcells, ht2]
    · cases ht
  · intro ha
    have hok := hspec.1 (hcov.2 ha)
    unfold Grid.fillAttributes
    rw [hlen, hok]
    refine ⟨rfl, ⟨hw, hh, ?_, ?_⟩, ?_⟩
    · simp [fillData_length, hlen]
    · intro cells hc
      obtain ⟨i, hi⟩ := List.getElem?_of_mem hc
      simp only [List.nil_append, fillData_getElem?, Nat.zero_add] at hi
      cases hrow : g.data[i]? with
      | none => rw [hrow] at hi; cases hi
      | some c0 =>
        rw [hrow] at hi
        simp only [Option.map_some', Option.some.injEq] at hi
        have hc0 : c0.length = w := hrows c0 (List.getElem?_mem hrow)
        have hilt : i < h := by
          rcases Nat.lt_or_ge i g.data.length with h1 | h1
          · omega
          · rw [List.getElem?_eq_none h1] at hrow; cases hrow
        have := ha i hilt
        rw [← hi, List.length_zipWith, hc0]
        omega
    · intro x y t u ht hu
      unfold Grid.getTile at ht ⊢
      simp only [Int.toNat_ofNat, List.nil_append, fillData_getElem?, Nat.zero_add] at ht ⊢
      rw [at2_eq] at hu
      split at ht
      · rename_i hpos
        rw [if_pos hpos]
        split at ht
        · cases ht
        · rename_i cells hcells
          split at ht
          · cases ht
          · rename_i t2 ht2
            cases ht
            split at hu
            · cases hu
            · rename_i u2 hu2
              cases hu
              simp [hcells, List.getElem?_zipWith, ht2, hu2]
      · cases ht
  · rintro ⟨y, hy, hlt⟩
    unfold Grid.fillAttributes
    rw [hlen]
    apply hspec.2
    intro hc
    have := hcov.1 hc y hy
    omega
  · intro hs
    obtain ⟨h1, h2⟩ := fillData_extract f s hs g.data 0 (g.extractAttributes f) (fun i => by
      simp [Grid.extractAttributes, List.getElem?_map])
    have hok := (fillRowsFrom_spec (g.extractAttributes f) s g.data [] g rfl).1 h1
    unfold Grid.fillAttributes
    simp only [List.length_nil, List.nil_append] at hok
    rw [hok, h2]

/-- C11 (witness): the round trip of `test.cpp` on a 2x2 grid: the transparency
is extracted, a visibility array is written back, and an array with a short
row is rejected with `out_of_range`. -/
theorem fillAttributes_extractAttributes_spec_witness :
    terrainGrid.WellFormed 2 2 ∧
    terrainGrid.extractAttributes (fun t => t.1) = [[1, 0], [1, 1]] ∧
    terrainGrid.fillAttributes [[true, false], [false, true]] (fun t v => (t.1, v)) =
      (none, { width := 2, height := 2,
               data := [[(1, true), (0, false)], [(1, false), (1, true)]] }) ∧
    (terrainGrid.fillAttributes [[true, false], [false]] (fun t v => (t.1, v))).1
      = some .out_of_range ∧
    terrainGrid.fillAttributes (terrainGrid.extractAttributes (fun t => t.2))
      (fun t v => (t.1, v)) = (none, terrainGrid) :=
  ⟨⟨rfl, rfl, rfl, by decide⟩, rfl, rfl,
    (fillAttributes_extractAttributes_spec terrainGrid 2 2 (fun t => t.2) (fun t v => (t.1, v))
      [[true, false], [false]] ⟨rfl, rfl, rfl, by decide⟩).2.2.1 ⟨1, by decide, by decide⟩,
    (fillAttributes_extractAttributes_spec terrainGrid 2 2 (fun t => t.2) (fun t v => (t.1, v))
      [] ⟨rfl, rfl, rfl, by decide⟩).2.2.2 (fun _ => rfl)⟩

/-- C12 (what the code does instead): the constructor fails exactly when the
width or the height is negative, but then always with the `length_error` of a
member initialiser (`std::vector` built with a negative count) and never with
the `invalid_argument` of its body; for non-negative `w` and `h` it succeeds
with `getWidth() = w`, `getHeight() = h` and data of `h` rows of `w` cells. -/
theorem Grid_construct_spec {T : Type} (dflt : T) (w h : Int) :
    ((∃ e, Grid.construct dflt w h = .error e) ↔ (w < 0 ∨ h < 0)) ∧
    ((w < 0 ∨ h < 0) → Grid.construct dflt w h = .error .length_error) ∧
    (∀ what, Grid.construct dflt w h ≠ .error (.invalid_argument what)) ∧
    (0 ≤ w → 0 ≤ h → ∃ g, Grid.construct dflt w h = .ok g ∧ g.getWidth = w ∧
      g.getHeight = h ∧ g.getData.length = h.toNat ∧
      ∀ cells ∈ g.getData, cells.length = w.toNat) := by
  unfold Grid.construct vectorOf
  by_cases hw : w < 0
  · simp [hw]
  · by_cases hh : h < 0
    · simp [hw, hh]
    · simp only [hw, hh, if_false, or_self, false_or]
      refine ⟨by simp, by simp, by simp, fun _ _ => ⟨_, rfl, rfl, rfl, by simp [Grid.getData], ?_⟩⟩
      intro cells hc
      simp only [Grid.getData] at hc
      rw [List.eq_of_mem_replicate hc]
      simp

end grid

namespace fov

/-- C13 (failing input): on the 3x3 map `cornerMap` seen from (1,1), with a stale
`prevTile` of `{0, 0}`, no probe leaves the map and the run returns after the
origin write and twelve calls of `reveal`. In the state reached after the
quadrants NORTH and SOUTH the position (2,2) is `true`; the next `reveal` call,
the first one of the quadrant EAST, at (0,2), inserts a new entry into row 2 in
front of it and leaves (2,2) `false`. After the quadrant EAST the position (6,2)
is `true`; it is `false` in the returned grid. -/
theorem reveal_unmarks_visible_tile :
    (updateFOVT 9 junkZero cornerMap (1, 1)).2 =
      [Event.origin 1 1,
        Event.first firstRow, Event.reveal 2 2, Event.reveal 2 1, Event.reveal 2 0,
        Event.first firstRow, Event.reveal 2 0, Event.reveal 2 1, Event.reveal 2 2,
        Event.first firstRow, Event.reveal 0 2, Event.reveal 1 2, Event.reveal 2 2,
        Event.first firstRow, Event.reveal 2 2, Event.reveal 1 2, Event.reveal 0 2] ∧
    updateFOVOrder [0, 1] 9 junkZero cornerMap (1, 1) =
      { status := .done,
        st := { vis := [[false, false, true, true, false],
                        [false, true, true, true, false, false],
                        [false, false, true, true, false]],
                calls := 2 } } ∧
    updateFOV 9 junkZero cornerMap (1, 1) =
      quadrantLoop 9 junkZero cornerMap (1, 1) [2, 3]
        (updateFOVOrder [0, 1] 9 junkZero cornerMap (1, 1)).st ∧
    cellAt (updateFOVOrder [0, 1] 9 junkZero cornerMap (1, 1)).st.vis 2 2 = some true ∧
    (Quadrant.mk 2 (1, 1)).transform ⟨1, -1⟩ = .ok (0, 2) ∧
    reveal (Quadrant.mk 2 (1, 1)) (updateFOVOrder [0, 1] 9 junkZero cornerMap (1, 1)).st.vis
        ⟨1, -1⟩ =
      .ok [[false, false, true, true, false], [false, true, true, true, false, false],
        [true, false, false, true, true, false]] ∧
    cellAt [[false, false, true, true, false], [false, true, true, true, false, false],
        [true, false, false, true, true, false]] 2 2 = some false ∧
    updateFOVOrder [0, 1, 2] 9 junkZero cornerMap (1, 1) =
      { status := .done,
        st := { vis := [[false, false, true, true, false],
                        [false, true, true, true, false, false],
                        [true, true, true, false, false, true, true, false]],
                calls := 3 } } ∧
    updateFOV 9 junkZero cornerMap (1, 1) =
      quadrantLoop 9 junkZero cornerMap (1, 1) [3]
        (updateFOVOrder [0, 1, 2] 9 junkZero cornerMap (1, 1)).st ∧
    cellAt (updateFOVOrder [0, 1, 2] 9 junkZero cornerMap (1, 1)).st.vis 6 2 = some true ∧
    (updateFOV 9 junkZero cornerMap (1, 1)).status = .done ∧
    cellAt (updateFOV 9 junkZero cornerMap (1, 1)).st.vis 6 2 = some false := by
  refine ⟨by decide!, by decide!, by decide!, by decide!, by decide!, by decide!, by decide!,
    by decide!, by decide!, by decide!, by decide!, by decide!⟩

/-- C14 (failing input): every tile that `Row::tiles` yields has the DEPTH of the
row in its field `x` and the column in its field `y`, so `transform` of the
quadrant NORTH, which reads the column from `x`, sends the tile of column `c` and
depth `d` to `(ox + d, oy - c)`; the tile of column -1 and depth 1 seen from
(2,2) is `{1, -1}` and is revealed at (3,3), where the claim has (1,1). -/
theorem tiles_store_depth_in_x :
    (∀ (row : Row) (t : Tile), t ∈ row.tiles →
      t.x = row.depth ∧ row.minCol ≤ t.y ∧ t.y ≤ row.maxCol ∧
      ∀ ox oy : Int, (Quadrant.mk 0 (ox, oy)).transform t = .ok (ox + row.depth, oy - t.y)) ∧
    firstRow.tiles = [⟨1, -1⟩, ⟨1, 0⟩, ⟨1, 1⟩] ∧
    (Quadrant.mk 0 (2, 2)).transform ⟨1, -1⟩ = .ok (3, 3) ∧
    (3, 3) ≠ ((2 : Int) + (-1), (2 : Int) - 1) ∧
    (updateFOVT 9 junkFar allFloor5 (2, 2)).2.take 3 =
      [Event.origin 2 2, Event.first firstRow, Event.reveal 3 3] := by
  refine ⟨fun row t ht => ?_, by decide!, by decide!, by decide, by decide!⟩
  obtain ⟨hx, h1, h2⟩ := (mem_tiles row t).1 ht
  refine ⟨hx, h1, h2, fun ox oy => ?_⟩
  simp [Quadrant.transform, hx]

/-- C15 (failing input): for a tile of the row's own `tiles()`, `isSymmetric`
compares the DEPTH of the row (the field `x` of the tile) with the slope cone:
it is true iff `d*s ≤ d` and `d ≤ d*e`, whatever the column. The row
`{2, -1, 1/2}`, which the run on `threeWallMap` from (0,1) scans, yields the tile
of column 0, inside the cone (`-2 ≤ 0 ≤ 1`), and `isSymmetric` is false for it.
Likewise the row `{2, 1/2, 1/2}`, which the run on `alcoveMap` from (1,1) scans
before it returns, yields the tile of column 1, inside the cone (`1 ≤ 1 ≤ 1`),
and `isSymmetric` is false for it. -/
theorem isSymmetric_compares_depth :
    (∀ (row : Row) (t : Tile), t ∈ row.tiles →
      (isSymmetric row t = true ↔
        (row.depth : ℚ) * row.startSlope ≤ row.depth ∧
        (row.depth : ℚ) ≤ row.depth * row.endSlope)) ∧
    (⟨2, 0⟩ : Tile) ∈ (Row.mk 2 (-1) (1 / 2)).tiles ∧
    isSymmetric (Row.mk 2 (-1) (1 / 2)) ⟨2, 0⟩ = false ∧
    ((2 : ℚ) * (-1) ≤ 0 ∧ (0 : ℚ) ≤ 2 * (1 / 2)) ∧
    Event.child (Row.mk 2 (-1) (1 / 2)) ∈ (updateFOVT 9 junkZero threeWallMap (0, 1)).2 ∧
    (updateFOVT 9 junkZero alcoveMap (1, 1)).1.status = .done ∧
    Event.child (Row.mk 2 (1 / 2) (1 / 2)) ∈ (updateFOVT 9 junkZero alcoveMap (1, 1)).2 ∧
    (Row.mk 2 (1 / 2) (1 / 2)).tiles = [⟨2, 1⟩] ∧
    isSymmetric (Row.mk 2 (1 / 2) (1 / 2)) ⟨2, 1⟩ = false ∧
    ((2 : ℚ) * (1 / 2) ≤ 1 ∧ (1 : ℚ) ≤ 2 * (1 / 2)) := by
  refine ⟨fun row t ht => ?_, by decide!, by decide!, by norm_num, by decide!, by decide!,
    by decide!, by decide!, by decide!, by norm_num⟩
  obtain ⟨hx, _, _⟩ := (mem_tiles row t).1 ht
  simp [isSymmetric, hx]

/-- C16 (failing input): on the 4x4 map `alcoveMap` seen from (1,1), with a stale
`prevTile` of `{0, 0}`, no probe leaves the map and the run returns. In its first
quadrant the child row `{2, 1/2, 1/2}` meets a floor tile after the (stale)
wall, and `row.startSlope = slope(tile)` turns it into the row `{2, 3/4, 1/2}`
with `startSlope > endSlope`, whose `next()`, `{3, 3/4, 1/2}`, is then passed to
`scan`. In every run, on any map, a row whose start slope has been reassigned
has `startSlope ≤ endSlope` only if its end slope is 1, because `slope` gets the
depth of the row where it reads the column; the first row and the child rows do
have `startSlope ≤ endSlope` when they are built. -/
theorem reassigned_row_breaks_slope_order :
    Rectangular alcoveMap 4 4 ∧
    (updateFOVT 9 junkZero alcoveMap (1, 1)).1.status = .done ∧
    (updateFOVT 9 junkZero alcoveMap (1, 1)).2.take 12 =
      [Event.origin 1 1, Event.first firstRow, Event.reveal 2 2,
        Event.slope ⟨1, -1⟩, Event.restarted (Row.mk 1 (1 / 2) 1), Event.reveal 2 1,
        Event.slope ⟨1, 0⟩, Event.child (Row.mk 2 (1 / 2) (1 / 2)),
        Event.slope ⟨2, 1⟩, Event.restarted (Row.mk 2 (3 / 4) (1 / 2)),
        Event.continuation (Row.mk 3 (3 / 4) (1 / 2)), Event.reveal 2 0] ∧
    Event.restarted (Row.mk 2 (3 / 4) (1 / 2)) ∈
      (updateFOVT 9 junkZero alcoveMap (1, 1)).2 ∧
    ¬ (Row.mk 2 (3 / 4) (1 / 2)).startSlope ≤ (Row.mk 2 (3 / 4) (1 / 2)).endSlope ∧
    (∀ (fuel : Nat) (junk : Nat → Tile) (transparency : List (List Int))
        (origin : Int × Int) (r : Row),
      Event.restarted r ∈ (updateFOVT fuel junk transparency origin).2 →
      (r.startSlope ≤ r.endSlope ↔ r.endSlope = 1)) ∧
    (∀ (fuel : Nat) (junk : Nat → Tile) (transparency : List (List Int))
        (origin : Int × Int) (r : Row),
      (Event.first r ∈ (updateFOVT fuel junk transparency origin).2 ∨
        Event.child r ∈ (updateFOVT fuel junk transparency origin).2) →
      r.startSlope ≤ r.endSlope) := by
  refine ⟨by decide, by decide!, by decide!, by decide!, by decide!, ?_, ?_⟩
  · intro fuel junk transparency origin r hr
    obtain ⟨hrow, _, _, hrestart, _⟩ :=
      updateFOVOrderT_rows [0, 1, 2, 3] fuel junk transparency origin _ hr
    obtain ⟨h1, h2, _⟩ := hrow r rfl
    have hs : r.startSlope < 1 := lt_of_le_of_lt h2 (slopeAt_lt_one r.depth h1)
    constructor
    · intro hle
      rcases hrestart r rfl with h | h
      · exact h
      · exact absurd hle (not_le.2 h)
    · intro h
      rw [h]
      exact le_of_lt hs
  · intro fuel junk transparency origin r hr
    rcases hr with hr | hr
    · obtain ⟨_, hfirst, _, _, _⟩ :=
        updateFOVOrderT_rows [0, 1, 2, 3] fuel junk transparency origin _ hr
      rw [hfirst r rfl]
      decide
    · obtain ⟨_, _, hchild, _, _⟩ :=
        updateFOVOrderT_rows [0, 1, 2, 3] fuel junk transparency origin _ hr
      exact hchild r rfl

/-- C17: `slope(tile)` is `(2 col - 1) / (2 col)` with `col = tile.x`, and in every
run of `updateFOV`, on any map and from any origin, every call of `slope` is on a
tile with `tile.x ≥ 1` (the field holds the depth of the row), so the divisor
`2 col` is never zero. -/
theorem slope_divisor_nonzero (fuel : Nat) (junk : Nat → Tile)
    (transparency : List (List Int)) (origin : Int × Int) (t : Tile)
    (h : Event.slope t ∈ (updateFOVT fuel junk transparency origin).2) :
    slope t = (2 * (t.x : ℚ) - 1) / (2 * (t.x : ℚ)) ∧ 1 ≤ t.x ∧ t.x ≠ 0 ∧
      2 * (t.x : ℚ) ≠ 0 := by
  have h1 : 1 ≤ t.x :=
    (updateFOVOrderT_rows [0, 1, 2, 3] fuel junk transparency origin _ h).2.2.2.2 t rfl
  refine ⟨rfl, h1, by omega, ?_⟩
  have : (1 : ℚ) ≤ (t.x : ℚ) := by exact_mod_cast h1
  linarith

/-- C17 (witness): the first call of `slope` in the run on `threeWallMap` from
(0,1) is on the tile `{1, -1}`: column -1 of the row of depth 1. -/
theorem slope_divisor_nonzero_witness :
    Event.slope { x := 1, y := -1 } ∈ (updateFOVT 9 junkZero threeWallMap (0, 1)).2 ∧
    (slope { x := 1, y := -1 } = (2 * ((1 : Int) : ℚ) - 1) / (2 * ((1 : Int) : ℚ)) ∧
      (1 : Int) ≤ 1 ∧ (1 : Int) ≠ 0 ∧ 2 * ((1 : Int) : ℚ) ≠ 0) :=
  ⟨by decide!, slope_divisor_nonzero 9 junkZero threeWallMap (0, 1) { x := 1, y := -1 }
    (by decide!)⟩

/-- C18 (failing input): a scan of a row without tiles goes straight to the
trailing `isFloor(prevTile)` with the `prevTile` that was never initialised: it
fails with the failure of that probe, returns if the stale tile is a wall, and
scans `row.next()` if it is a floor. The row `{3, 3/4, 1/2}` has the column range
2..1 and no tile; with a stale `prevTile` of `{0, 0}`, the transparent origin of
`twoWallMap` seen from (0,1), its scan makes the recursive call
`scan({4, 3/4, 1/2})`, and with a stale `prevTile` of `{-100, -100}` its scan
reads outside the map. The run on `oneWallMap` from (0,1), in which no probe
leaves the map, scans this empty row and from it the rows `{4, 3/4, 1/2}` and
`{5, 3/4, 1/2}`. -/
theorem empty_row_scan_reads_stale_prevTile :
    (∀ (junk : Nat → Tile) (transparency : List (List Int)) (q : Quadrant) (n : Nat)
        (row : Row) (st : St), row.tiles = [] →
      scanT junk transparency q (n + 1) row st =
        match isFloor transparency q (junk st.calls) with
        | .error e => ({ status := .threw e, st := { st with calls := st.calls + 1 } }, [])
        | .ok false => ({ status := .done, st := { st with calls := st.calls + 1 } }, [])
        | .ok true =>
          logged [Event.continuation row.next]
            (scanT junk transparency q n row.next { st with calls := st.calls + 1 })) ∧
    (Row.mk 3 (3 / 4) (1 / 2)).minCol = 2 ∧ (Row.mk 3 (3 / 4) (1 / 2)).maxCol = 1 ∧
    (Row.mk 3 (3 / 4) (1 / 2)).tiles = [] ∧
    isFloor twoWallMap (Quadrant.mk 0 (0, 1)) ⟨0, 0⟩ = .ok true ∧
    (∀ (n : Nat) (st : St),
      scanT junkZero twoWallMap (Quadrant.mk 0 (0, 1)) (n + 1) (Row.mk 3 (3 / 4) (1 / 2)) st =
        logged [Event.continuation (Row.mk 4 (3 / 4) (1 / 2))]
          (scanT junkZero twoWallMap (Quadrant.mk 0 (0, 1)) n (Row.mk 4 (3 / 4) (1 / 2))
            { st with calls := st.calls + 1 })) ∧
    Event.continuation (Row.mk 3 (3 / 4) (1 / 2)) ∈
      (updateFOVT 5 junkWallOnce oneWallMap (0, 1)).2 ∧
    Event.continuation (Row.mk 4 (3 / 4) (1 / 2)) ∈
      (updateFOVT 5 junkWallOnce oneWallMap (0, 1)).2 ∧
    Event.continuation (Row.mk 5 (3 / 4) (1 / 2)) ∈
      (updateFOVT 5 junkWallOnce oneWallMap (0, 1)).2 ∧
    (∀ (n : Nat) (st : St),
      (scan junkFar twoWallMap (Quadrant.mk 0 (0, 1)) (n + 1) (Row.mk 3 (3 / 4) (1 / 2))
        st).status = .threw .undefined) := by
  have hgen : ∀ (junk : Nat → Tile) (transparency : List (List Int)) (q : Quadrant) (n : Nat)
      (row : Row) (st : St), row.tiles = [] →
      scanT junk transparency q (n + 1) row st =
        match isFloor transparency q (junk st.calls) with
        | .error e => ({ status := .threw e, st := { st with calls := st.calls + 1 } }, [])
        | .ok false => ({ status := .done, st := { st with calls := st.calls + 1 } }, [])
        | .ok true =>
          logged [Event.continuation row.next]
            (scanT junk transparency q n row.next { st with calls := st.calls + 1 }) := by
    intro junk transparency q n row st ht
    rw [scanT, ht, scanTilesT]
  have ht : (Row.mk 3 (3 / 4) (1 / 2)).tiles = [] := narrowRow_tiles 3 (by decide)
  refine ⟨hgen, by decide!, by decide!, ht, by decide!, fun n st => ?_, by decide!, by decide!,
    by decide!, fun n st => ?_⟩
  · rw [hgen _ _ _ _ _ _ ht]
    have hf : isFloor twoWallMap (Quadrant.mk 0 (0, 1)) (junkZero st.calls) = .ok true := by
      show isFloor twoWallMap (Quadrant.mk 0 (0, 1)) ⟨0, 0⟩ = .ok true
      decide!
    rw [hf]
    rfl
  · rw [scan, ht, scanTiles]
    have hf : isFloor twoWallMap (Quadrant.mk 0 (0, 1)) (junkFar st.calls) =
        .error .undefined := by
      show isFloor twoWallMap (Quadrant.mk 0 (0, 1)) ⟨-100, -100⟩ = .error .undefined
      decide!
    rw [hf]

/-- C19: the visibility sink inserts rather than overwrites. For every
visibility map `v`, every row index `y` of `v` and every `x` with
`0 ≤ x ≤ length(v[y])`, the call `setTile({x, y}, val)` completes and yields a map
with as many rows, whose row `y` is one element longer, holds `val` at index
`x`, keeps the entries at the indices below `x`, holds the old entry `i` at index
`i + 1` for every `i ≥ x`, and whose other rows are unchanged. Hence, for a
rectangular map of width `w` and height `h`, every row `k` of the visibility map of
a run of `updateFOV` has length `w` plus the number of `setTile` calls of the
run that targeted row `k`. -/
theorem setTile_inserts (fuel : Nat) (junk : Nat → Tile)
    (transparency : List (List Int)) (w h : Nat) (origin : Int × Int)
    (hrect : Rectangular transparency w h) :
    (∀ (v : List (List Bool)) (cells : List Bool) (t : Tile) (val : Bool),
      0 ≤ t.y → 0 ≤ t.x → v[t.y.toNat]? = some cells → t.x.toNat ≤ cells.length →
      ∃ v2 cells2, setTile v t val = .ok v2 ∧ v2.length = v.length ∧
        v2[t.y.toNat]? = some cells2 ∧
        cells2.length = cells.length + 1 ∧
        cells2[t.x.toNat]? = some val ∧
        (∀ i, i < t.x.toNat → cells2[i]? = cells[i]?) ∧
        (∀ i, t.x.toNat ≤ i → cells2[i + 1]? = cells[i]?) ∧
        (∀ k, k ≠ t.y.toNat → v2[k]? = v[k]?)) ∧
    (updateFOV fuel junk transparency origin).st.vis.length = h ∧
    (∀ k, k < h → ∃ cells,
      (updateFOV fuel junk transparency origin).st.vis[k]? = some cells ∧
      cells.length = w + setTileCalls k (updateFOVT fuel junk transparency origin).2) := by
  refine ⟨?_, ?_, ?_⟩
  · intro v cells t val hy hx hrow hlen
    have hlt : t.y.toNat < v.length := by
      by_contra hge
      rw [List.getElem?_eq_none (by omega)] at hrow
      cases hrow
    refine ⟨_, _, setTile_ok_of_le v cells t val hy hx hrow hlen, by simp,
      List.getElem?_set_self hlt, insertAt_length _ _ _,
      insertAt_getElem?_eq _ _ _ hlen,
      fun i hi => insertAt_getElem?_lt _ _ _ i hlen hi,
      fun i hi => insertAt_getElem?_ge _ _ _ i hlen hi,
      fun k hk => List.getElem?_set_ne (Ne.symm hk)⟩
  · have h0 := updateFOVOrderT_rowLen [0, 1, 2, 3] fuel junk transparency origin
    have hlen : ∀ k, k < (updateFOV fuel junk transparency origin).st.vis.length ↔ k < h := by
      intro k
      have hk := h0 k
      rw [← updateFOVT_fst]
      unfold updateFOVT
      constructor
      · intro hlt
        by_contra hge
        have hnone : rowLen (initialMap transparency) k = none := by
          unfold rowLen
          rw [List.getElem?_eq_none (by simp [initialMap, hrect.1]; omega)]
          rfl
        rw [hnone] at hk
        unfold rowLen at hk
        rw [List.getElem?_eq_getElem hlt] at hk
        cases hk
      · intro hlt
        rw [rowLen_initialMap transparency w h hrect k hlt] at hk
        by_contra hge
        unfold rowLen at hk
        rw [List.getElem?_eq_none (by omega)] at hk
        cases hk
    apply Nat.le_antisymm
    · by_contra hgt
      have := (hlen h).1 (by omega)
      omega
    · by_contra hgt
      have := (hlen (updateFOV fuel junk transparency origin).st.vis.length).2 (by omega)
      omega
  · intro k hk
    have h0 := updateFOVOrderT_rowLen [0, 1, 2, 3] fuel junk transparency origin k
    rw [rowLen_initialMap transparency w h hrect k hk] at h0
    rw [← updateFOVT_fst]
    unfold updateFOVT
    unfold rowLen at h0
    cases hrow : (updateFOVOrderT [0, 1, 2, 3] fuel junk transparency origin).1.st.vis[k]? with
    | none => rw [hrow] at h0; cases h0
    | some cells =>
      rw [hrow] at h0
      simp only [Option.map_some'] at h0
      exact ⟨cells, rfl, Option.some.inj h0⟩

/-- C19 (witness): on the 3x3 map `cornerMap` seen from (1,1) the run returns;
eight calls of `setTile` target row 2 and the row comes out with 3 + 8 entries. -/
theorem setTile_inserts_witness :
    Rectangular cornerMap 3 3 ∧
    (updateFOV 9 junkZero cornerMap (1, 1)).status = .done ∧
    setTileCalls 2 (updateFOVT 9 junkZero cornerMap (1, 1)).2 = 8 ∧
    ∃ cells, (updateFOV 9 junkZero cornerMap (1, 1)).st.vis[2]? = some cells ∧
      cells.length = 3 + setTileCalls 2 (updateFOVT 9 junkZero cornerMap (1, 1)).2 :=
  ⟨by decide, by decide!, by decide!,
    (setTile_inserts 9 junkZero cornerMap 3 3 (1, 1) (by decide)).2.2 2 (by decide)⟩

/-- C20: every tile revealed by a scan of a row of depth at least 1 has absolute
`x > ox` in the quadrants NORTH and SOUTH and absolute `y > oy` in the quadrants
EAST and WEST, because the depth of the row is what reaches `transform` as the
column; so every reveal of a run of `updateFOV` is at a position with `x > ox` or
`y > oy`. Consequently, for every rectangular map and in-bounds origin, the
visibility map holds `false` at every position with `0 ≤ x ≤ ox` and
`0 ≤ y ≤ oy` other than the origin, whatever the transparency of the map, the
fuel and the uninitialised tile. -/
theorem reveals_beyond_origin (fuel : Nat) (junk : Nat → Tile)
    (transparency : List (List Int)) (w h : Nat) (ox oy : Int)
    (hrect : Rectangular transparency w h)
    (hx1 : ox < w) (hy1 : oy < h) :
    (∀ (i : Int) (n : Nat) (row : Row) (st : St) (x y : Int), 1 ≤ row.depth →
      Event.reveal x y ∈
        (scanT junk transparency { cardinal := i, origin := (ox, oy) } n row st).2 →
      ((i = 0 ∨ i = 1) → ox < x) ∧ ((i = 2 ∨ i = 3) → oy < y)) ∧
    (∀ x y, Event.reveal x y ∈ (updateFOVT fuel junk transparency (ox, oy)).2 →
      ox < x ∨ oy < y) ∧
    (∀ x y, 0 ≤ x → x ≤ ox → 0 ≤ y → y ≤ oy → (x, y) ≠ (ox, oy) →
      cellAt (updateFOV fuel junk transparency (ox, oy)).st.vis x y = some false) := by
  refine ⟨?_, ?_, ?_⟩
  · intro i n row st x y hd hmem
    exact scanT_reveals junk transparency { cardinal := i, origin := (ox, oy) } n row st hd
      _ hmem x y rfl
  · intro x y hmem
    exact updateFOVOrderT_reveals [0, 1, 2, 3] fuel junk transparency (ox, oy) _ hmem x y rfl
  · intro x y hx0 hxo hy0 hyo hne
    apply updateFOV_before_origin fuel junk transparency w h ox oy hrect hx1 hy1 x y
      hx0 hxo hy0 hyo
    by_cases hy : y = oy
    · right
      have : x ≠ ox := fun hx => hne (by rw [hx, hy])
      omega
    · left; exact hy

/-- C20 (witness): scenario B of the specification: the NORTH quadrant reveals
(3,3), east of the origin (2,2) and not north of it, and the wall (2,1) north
of the origin stays `false`. -/
theorem reveals_beyond_origin_witness :
    Event.reveal 3 3 ∈ (updateFOVT 9 junkZero wallNorthMap (2, 2)).2 ∧
    ((2 : Int) < 3 ∨ (2 : Int) < 3) ∧
    cellAt (updateFOV 9 junkZero wallNorthMap (2, 2)).st.vis 2 1 = some false :=
  ⟨by decide!,
    (reveals_beyond_origin 9 junkZero wallNorthMap 5 5 2 2 (by decide) (by decide)
      (by decide)).2.1 3 3 (by decide!),
    (reveals_beyond_origin 9 junkZero wallNorthMap 5 5 2 2 (by decide) (by decide)
      (by decide)).2.2 2 1 (by decide) (by decide) (by decide)
      (by decide) (by decide)⟩

end fov
